import Mathlib

/-!
A shallow embedding of the region-labeling core of `visualize.py`
(classes `Segmentation`, `Drawing`, and the segmentation/undo/selection
machinery of `ImageCanvas`), together with theorems about it.

Images and label arrays are modelled as rectangular `List (List _)`
grids (row-major, indexed `[y][x]` as in the NumPy arrays of the
source); Python dictionaries are modelled as insertion-ordered
association lists; Python list-stacks (append/pop at the end) are
modelled as Lean lists with `++ [e]` / `getLast?` / `dropLast`.
-/

namespace Segment

/-- A pixel coordinate `(x, y)`, Python integers. -/
abbrev Pos := Int × Int

/-- An RGB color triple. -/
abbrev Color := Nat × Nat × Nat

/-- A row-major 2D array, `g[y][x]`. -/
abbrev Grid (α : Type) := List (List α)

/-- Number of columns (the NumPy `shape[1]`); rows are uniform in every
grid the source builds. -/
def gridW {α : Type} (g : Grid α) : Nat := (g.headD []).length

/-- Number of rows (the NumPy `shape[0]`). -/
def gridH {α : Type} (g : Grid α) : Nat := g.length

/-- Read `g[y][x]`, returning `d` out of bounds (the source either
bounds-checks before reading or treats out-of-bounds as the default). -/
def gridGet {α : Type} (d : α) (g : Grid α) (x y : Int) : α :=
  if 0 ≤ x ∧ 0 ≤ y then (g.getD y.toNat []).getD x.toNat d else d

/-- Write `g[y][x] = v`; a no-op out of bounds (matching the explicit
bounds checks guarding every write in the source). -/
def gridSet {α : Type} (g : Grid α) (x y : Int) (v : α) : Grid α :=
  if 0 ≤ x ∧ 0 ≤ y then g.set y.toNat ((g.getD y.toNat []).set x.toNat v) else g

/-- A `w × h` grid filled with `d` (`np.zeros`-style allocation). -/
def mkGrid {α : Type} (d : α) (w h : Nat) : Grid α :=
  List.replicate h (List.replicate w d)

/-- The grid is rectangular with `h` rows of `w` entries. -/
def Rect {α : Type} (w h : Nat) (g : Grid α) : Prop :=
  g.length = h ∧ ∀ row ∈ g, row.length = w

/-- `(x, y)` is inside a `w × h` grid. -/
def InB (w h : Nat) (x y : Int) : Prop :=
  0 ≤ x ∧ x < (w : Int) ∧ 0 ≤ y ∧ y < (h : Int)

instance (w h : Nat) (x y : Int) : Decidable (InB w h x y) := by
  unfold InB; infer_instance

instance {α : Type} (w h : Nat) (g : Grid α) : Decidable (Rect w h g) := by
  unfold Rect
  infer_instance

theorem rect_mkGrid {α : Type} (d : α) (w h : Nat) : Rect w h (mkGrid d w h) := by
  constructor
  · simp [mkGrid]
  · intro row hrow
    simp [mkGrid] at hrow
    simp [hrow.2]

theorem gridGet_mkGrid {α : Type} (d : α) (w h : Nat) (x y : Int) :
    gridGet d (mkGrid d w h) x y = d := by
  unfold gridGet mkGrid
  split
  · rcases Nat.lt_or_ge y.toNat h with hy | hy
    · have h1 : (List.replicate h (List.replicate w d)).getD y.toNat [] =
          List.replicate w d := by
        rw [List.getD_eq_getElem?_getD, List.getElem?_replicate_of_lt hy]
        rfl
      rw [h1]
      rcases Nat.lt_or_ge x.toNat w with hx | hx
      · rw [List.getD_eq_getElem?_getD, List.getElem?_replicate_of_lt hx]
        rfl
      · rw [List.getD_eq_getElem?_getD, List.getElem?_eq_none (by simpa using hx)]
        rfl
    · have h1 : (List.replicate h (List.replicate w d)).getD y.toNat [] =
          ([] : List α) := by
        rw [List.getD_eq_getElem?_getD, List.getElem?_eq_none (by simpa using hy)]
        rfl
      rw [h1]
      rfl
  · rfl

theorem rect_gridSet {α : Type} {w h : Nat} {g : Grid α} (hg : Rect w h g)
    (x y : Int) (v : α) : Rect w h (gridSet g x y v) := by
  unfold gridSet
  split
  · rcases Nat.lt_or_ge y.toNat g.length with hy | hy
    · refine ⟨by simpa using hg.1, ?_⟩
      intro row hrow
      rcases List.mem_or_eq_of_mem_set hrow with hmem | heq
      · exact hg.2 row hmem
      · subst heq
        have hrowg : g.getD y.toNat [] = g[y.toNat] := by
          rw [List.getD_eq_getElem?_getD, List.getElem?_eq_getElem hy]
          rfl
        rw [hrowg, List.length_set]
        exact hg.2 _ (List.getElem_mem hy)
    · rw [List.set_eq_of_length_le hy]
      exact hg
  · exact hg

theorem getD_row_eq {α : Type} {w h : Nat} {g : Grid α} (hg : Rect w h g)
    {n : Nat} (hn : n < h) :
    g.getD n [] = g.get ⟨n, by rw [hg.1]; exact hn⟩ := by
  rw [List.getD_eq_getElem?_getD, List.getElem?_eq_getElem (by rw [hg.1]; exact hn)]
  rfl

theorem getD_row_length {α : Type} {w h : Nat} {g : Grid α} (hg : Rect w h g)
    {n : Nat} (hn : n < h) : (g.getD n []).length = w := by
  rw [getD_row_eq hg hn]
  exact hg.2 _ (List.get_mem g _ _)

theorem gridGet_gridSet_self {α : Type} {w h : Nat} {g : Grid α} (hg : Rect w h g)
    (d v : α) {x y : Int} (hin : InB w h x y) :
    gridGet d (gridSet g x y v) x y = v := by
  obtain ⟨hx0, hxw, hy0, hyh⟩ := hin
  have hxy : 0 ≤ x ∧ 0 ≤ y := ⟨hx0, hy0⟩
  have hyn : y.toNat < g.length := by rw [hg.1]; omega
  have hxn : x.toNat < (g.getD y.toNat []).length := by
    rw [getD_row_length hg (by omega)]
    omega
  unfold gridSet gridGet
  rw [if_pos hxy, if_pos hxy]
  have h1 : (g.set y.toNat ((g.getD y.toNat []).set x.toNat v)).getD y.toNat [] =
      (g.getD y.toNat []).set x.toNat v := by
    rw [List.getD_eq_getElem?_getD, List.getElem?_set_self hyn]
    rfl
  rw [h1, List.getD_eq_getElem?_getD, List.getElem?_set_self hxn]
  rfl

theorem gridGet_gridSet_ne {α : Type} {g : Grid α} (d v : α) {x y a b : Int}
    (hne : (a, b) ≠ (x, y)) :
    gridGet d (gridSet g x y v) a b = gridGet d g a b := by
  unfold gridSet
  by_cases hxy : 0 ≤ x ∧ 0 ≤ y
  · rw [if_pos hxy]
    unfold gridGet
    by_cases hab : 0 ≤ a ∧ 0 ≤ b
    · rw [if_pos hab, if_pos hab]
      by_cases hrow : b.toNat = y.toNat
      · have hbeq : b = y := by omega
        subst hbeq
        have hane : a ≠ x := by
          intro hc
          exact hne (by rw [hc])
        have hanat : a.toNat ≠ x.toNat := by omega
        rcases Nat.lt_or_ge b.toNat g.length with hyn | hyn
        · have h1 : (g.set b.toNat ((g.getD b.toNat []).set x.toNat v)).getD b.toNat [] =
              (g.getD b.toNat []).set x.toNat v := by
            rw [List.getD_eq_getElem?_getD, List.getElem?_set_self hyn]
            rfl
          rw [h1, List.getD_eq_getElem?_getD,
            List.getElem?_set_ne (by omega : x.toNat ≠ a.toNat),
            ← List.getD_eq_getElem?_getD]
        · rw [List.set_eq_of_length_le hyn]
      · have h1 : (g.set y.toNat ((g.getD y.toNat []).set x.toNat v)).getD b.toNat [] =
            g.getD b.toNat [] := by
          rw [List.getD_eq_getElem?_getD,
            List.getElem?_set_ne (by omega : y.toNat ≠ b.toNat),
            ← List.getD_eq_getElem?_getD]
        rw [h1]
    · rw [if_neg hab, if_neg hab]
  · rw [if_neg hxy]

theorem gridGet_oob {α : Type} {w h : Nat} {g : Grid α} (hg : Rect w h g)
    (d : α) {x y : Int} (hout : ¬ InB w h x y) :
    gridGet d g x y = d := by
  unfold gridGet
  by_cases hxy : 0 ≤ x ∧ 0 ≤ y
  · rw [if_pos hxy]
    unfold InB at hout
    push_neg at hout
    rcases Nat.lt_or_ge y.toNat h with hyn | hyn
    · have hxw : (w : Int) ≤ x := by
        by_cases hx : x < (w : Int)
        · exfalso
          have := hout hxy.1 hx hxy.2
          omega
        · omega
      have hlen : (g.getD y.toNat []).length ≤ x.toNat := by
        rw [getD_row_length hg hyn]
        omega
      rw [List.getD_eq_getElem?_getD, List.getElem?_eq_none hlen]
      rfl
    · have h1 : g.getD y.toNat [] = ([] : List α) := by
        rw [List.getD_eq_getElem?_getD, List.getElem?_eq_none (by rw [hg.1]; omega)]
        rfl
      rw [h1]
      rfl
  · rw [if_neg hxy]

/-- The 4-neighbor offsets, in the order `compute_segmentation_borders`
and `_numpy_flood_fill` list them. -/
def neighborOffsets : List (Int × Int) := [(1, 0), (-1, 0), (0, 1), (0, -1)]

/-- The 4-neighbors of a pixel, in source order. -/
def nbrs (p : Pos) : List Pos :=
  neighborOffsets.map (fun o => (p.1 + o.1, p.2 + o.2))

/-- The neighbor pushes of one `_numpy_flood_fill` iteration: neighbors
that are in bounds, unvisited and target-colored are appended to the
stack in source order.  The Lean list head stands for the Python list
end (where `append`/`pop` operate), hence the `reverse`. -/
def pushNbrs (w h : Nat) (target visited : Grid Bool) (x y : Int)
    (stack : List Pos) : List Pos :=
  ((nbrs (x, y)).filter (fun q =>
    decide (InB w h q.1 q.2) && !(gridGet false visited q.1 q.2)
      && gridGet false target q.1 q.2)).reverse ++ stack

/-- The explicit-stack loop of `_numpy_flood_fill`, indexed by fuel;
`none` when the fuel runs out before the stack empties. -/
def floodLoop (w h : Nat) (target : Grid Bool) :
    Nat → List Pos → Grid Bool → List Pos → Option (List Pos)
  | _, [], _, filled => some filled
  | 0, _ :: _, _, _ => none
  | fuel + 1, (x, y) :: stack, visited, filled =>
    if ¬ InB w h x y then
      floodLoop w h target fuel stack visited filled
    else if gridGet false visited x y = true ∨ gridGet false target x y = false then
      floodLoop w h target fuel stack visited filled
    else
      floodLoop w h target fuel
        (pushNbrs w h target (gridSet visited x y true) x y stack)
        (gridSet visited x y true) (filled ++ [(x, y)])

/-- Target-colored cells not yet visited (the loop's potential).
Elements of the index set are `(y, x)` pairs as in the NumPy arrays. -/
def unvisitedCount (w h : Nat) (target visited : Grid Bool) : Nat :=
  ((Finset.range h ×ˢ Finset.range w).filter (fun p =>
    gridGet false target (p.2 : Int) (p.1 : Int) = true ∧
      gridGet false visited (p.2 : Int) (p.1 : Int) = false)).card

theorem unvisitedCount_le (w h : Nat) (target visited : Grid Bool) :
    unvisitedCount w h target visited ≤ h * w := by
  calc unvisitedCount w h target visited
      ≤ (Finset.range h ×ˢ Finset.range w).card := Finset.card_filter_le _ _
    _ = h * w := by simp

theorem unvisitedCount_mark {w h : Nat} {target visited : Grid Bool} {x y : Int}
    (hrect : Rect w h visited) (hin : InB w h x y)
    (hvis : gridGet false visited x y = false)
    (htar : gridGet false target x y = true) :
    unvisitedCount w h target (gridSet visited x y true) + 1 ≤
      unvisitedCount w h target visited := by
  unfold unvisitedCount
  obtain ⟨hx0, hxw, hy0, hyh⟩ := hin
  have hx1 : ((x.toNat : Nat) : Int) = x := Int.toNat_of_nonneg hx0
  have hy1 : ((y.toNat : Nat) : Int) = y := Int.toNat_of_nonneg hy0
  have hmem : (y.toNat, x.toNat) ∈ (Finset.range h ×ˢ Finset.range w).filter
      (fun p => gridGet false target (p.2 : Int) (p.1 : Int) = true ∧
        gridGet false visited (p.2 : Int) (p.1 : Int) = false) := by
    refine Finset.mem_filter.mpr ⟨Finset.mem_product.mpr ⟨?_, ?_⟩, ?_, ?_⟩
    · simp only [Finset.mem_range]
      omega
    · simp only [Finset.mem_range]
      omega
    · show gridGet false target ((x.toNat : Nat) : Int) ((y.toNat : Nat) : Int) = true
      rw [hx1, hy1]
      exact htar
    · show gridGet false visited ((x.toNat : Nat) : Int) ((y.toNat : Nat) : Int) = false
      rw [hx1, hy1]
      exact hvis
  have hsub : (Finset.range h ×ˢ Finset.range w).filter
      (fun p => gridGet false target (p.2 : Int) (p.1 : Int) = true ∧
        gridGet false (gridSet visited x y true) (p.2 : Int) (p.1 : Int) = false) ⊆
      ((Finset.range h ×ˢ Finset.range w).filter
        (fun p => gridGet false target (p.2 : Int) (p.1 : Int) = true ∧
          gridGet false visited (p.2 : Int) (p.1 : Int) = false)).erase
        (y.toNat, x.toNat) := by
    intro q hq
    obtain ⟨qy, qx⟩ := q
    obtain ⟨hqmem, hqt, hqv⟩ := Finset.mem_filter.mp hq
    have hqv2 : gridGet false (gridSet visited x y true) ((qx : Nat) : Int)
        ((qy : Nat) : Int) = false := hqv
    have hqne : (qy, qx) ≠ ((y.toNat : Nat), (x.toNat : Nat)) := by
      intro hc
      injection hc with h1 h2
      subst h1
      subst h2
      rw [hx1, hy1, gridGet_gridSet_self hrect false true ⟨hx0, hxw, hy0, hyh⟩] at hqv2
      simp at hqv2
    have hcoords : (((qx : Nat) : Int), ((qy : Nat) : Int)) ≠ (x, y) := by
      intro hc
      injection hc with h1 h2
      have e1 : qx = x.toNat := by omega
      have e2 : qy = y.toNat := by omega
      exact hqne (by rw [e1, e2])
    refine Finset.mem_erase.mpr ⟨hqne, Finset.mem_filter.mpr ⟨hqmem, hqt, ?_⟩⟩
    show gridGet false visited ((qx : Nat) : Int) ((qy : Nat) : Int) = false
    rw [← gridGet_gridSet_ne false true hcoords]
    exact hqv2
  calc ((Finset.range h ×ˢ Finset.range w).filter
        (fun p => gridGet false target (p.2 : Int) (p.1 : Int) = true ∧
          gridGet false (gridSet visited x y true) (p.2 : Int) (p.1 : Int) = false)).card + 1
      ≤ (((Finset.range h ×ˢ Finset.range w).filter
          (fun p => gridGet false target (p.2 : Int) (p.1 : Int) = true ∧
            gridGet false visited (p.2 : Int) (p.1 : Int) = false)).erase
          (y.toNat, x.toNat)).card + 1 :=
        Nat.add_le_add_right (Finset.card_le_card hsub) 1
    _ = ((Finset.range h ×ˢ Finset.range w).filter
          (fun p => gridGet false target (p.2 : Int) (p.1 : Int) = true ∧
            gridGet false visited (p.2 : Int) (p.1 : Int) = false)).card := by
        rw [Finset.card_erase_of_mem hmem]
        have hpos : 0 < ((Finset.range h ×ˢ Finset.range w).filter
            (fun p => gridGet false target (p.2 : Int) (p.1 : Int) = true ∧
              gridGet false visited (p.2 : Int) (p.1 : Int) = false)).card :=
          Finset.card_pos.mpr ⟨_, hmem⟩
        omega

theorem pushNbrs_length {w h : Nat} (target visited : Grid Bool) (x y : Int)
    (stack : List Pos) :
    (pushNbrs w h target visited x y stack).length ≤ 4 + stack.length := by
  unfold pushNbrs
  rw [List.length_append, List.length_reverse]
  have h4 : (nbrs (x, y)).length = 4 := rfl
  have hle : ((nbrs (x, y)).filter (fun q =>
      decide (InB w h q.1 q.2) && !(gridGet false visited q.1 q.2)
        && gridGet false target q.1 q.2)).length ≤ (nbrs (x, y)).length :=
    List.length_filter_le _ _
  omega

theorem floodLoop_isSome {w h : Nat} {target : Grid Bool} :
    ∀ (fuel : Nat) (stack : List Pos) (visited : Grid Bool) (filled : List Pos),
      Rect w h visited →
      stack.length + 4 * unvisitedCount w h target visited ≤ fuel →
      (floodLoop w h target fuel stack visited filled).isSome = true := by
  intro fuel
  induction fuel with
  | zero =>
    intro stack visited filled hrect hle
    match stack with
    | [] => rfl
    | p :: rest => simp at hle
  | succ n ih =>
    intro stack visited filled hrect hle
    match stack with
    | [] => rfl
    | (x, y) :: rest =>
      rw [floodLoop]
      by_cases hb : InB w h x y
      · rw [if_neg (by simpa using hb)]
        by_cases hskip : gridGet false visited x y = true ∨
            gridGet false target x y = false
        · rw [if_pos hskip]
          apply ih rest visited filled hrect
          simp at hle
          omega
        · rw [if_neg hskip]
          push_neg at hskip
          have hvis : gridGet false visited x y = false := by
            cases hgv : gridGet false visited x y
            · rfl
            · exact absurd hgv hskip.1
          have htar : gridGet false target x y = true := by
            cases hgt : gridGet false target x y
            · exact absurd hgt hskip.2
            · rfl
          apply ih _ _ _ (rect_gridSet hrect x y true)
          have hcount := unvisitedCount_mark hrect hb hvis htar
          have hlen := pushNbrs_length (w := w) (h := h) target
            (gridSet visited x y true) x y rest
          simp at hle
          omega
      · rw [if_pos hb]
        apply ih rest visited filled hrect
        simp at hle
        omega

/-- Fuel with which the flood-fill loop provably finishes on any input. -/
def ffFuel (target : Grid Bool) : Nat := 1 + 4 * (gridH target * gridW target)

/-- `ImageCanvas._numpy_flood_fill`: run the stack loop from the seed on
a fresh all-false visited bitmap sized to the grid. -/
def numpyFloodFill (target : Grid Bool) (sx sy : Int) : List Pos :=
  (floodLoop (gridW target) (gridH target) target (ffFuel target)
    [(sx, sy)] (mkGrid false (gridW target) (gridH target)) []).getD []

/-- C6: for every finite grid and every seed coordinate (in bounds or
not), the explicit-stack flood-fill traversal with its visited bitmap
terminates: the loop, given fuel `1 + 4·h·w`, reaches the empty stack
and returns a result. -/
theorem c6_flood_fill_terminates (target : Grid Bool) (sx sy : Int) :
    (floodLoop (gridW target) (gridH target) target (ffFuel target)
      [(sx, sy)] (mkGrid false (gridW target) (gridH target)) []).isSome = true := by
  apply floodLoop_isSome
  · exact rect_mkGrid false (gridW target) (gridH target)
  · have := unvisitedCount_le (gridW target) (gridH target) target
      (mkGrid false (gridW target) (gridH target))
    unfold ffFuel
    simp
    omega

/-- A traversable cell of the flood fill: in bounds and target-colored. -/
def OkCell (w h : Nat) (target : Grid Bool) (p : Pos) : Prop :=
  InB w h p.1 p.2 ∧ gridGet false target p.1 p.2 = true

/-- 4-connected reachability from the seed through traversable cells. -/
inductive Reach (w h : Nat) (target : Grid Bool) (src : Pos) : Pos → Prop
  | refl : OkCell w h target src → Reach w h target src src
  | step {q r : Pos} : Reach w h target src q → r ∈ nbrs q →
      OkCell w h target r → Reach w h target src r

/-- Invariant of the flood-fill loop relating stack, visited bitmap and
filled list to reachability from the seed. -/
structure LoopInv (w h : Nat) (target : Grid Bool) (src : Pos)
    (stack : List Pos) (visited : Grid Bool) (filled : List Pos) : Prop where
  rect : Rect w h visited
  filled_iff : ∀ p : Pos, p ∈ filled ↔ gridGet false visited p.1 p.2 = true
  vis_reach : ∀ p : Pos, gridGet false visited p.1 p.2 = true → Reach w h target src p
  stack_reach : ∀ p ∈ stack, Reach w h target src p ∨ p = src
  closed : ∀ p : Pos, gridGet false visited p.1 p.2 = true →
    ∀ q ∈ nbrs p, OkCell w h target q →
      gridGet false visited q.1 q.2 = true ∨ q ∈ stack
  src_in : OkCell w h target src →
    gridGet false visited src.1 src.2 = true ∨ src ∈ stack

theorem loopInv_final {w h : Nat} {target : Grid Bool} {src : Pos}
    {visited : Grid Bool} {filled : List Pos}
    (hinv : LoopInv w h target src [] visited filled) :
    ∀ p : Pos, p ∈ filled ↔ Reach w h target src p := by
  intro p
  constructor
  · intro hp
    exact hinv.vis_reach p ((hinv.filled_iff p).mp hp)
  · intro hr
    apply (hinv.filled_iff p).mpr
    induction hr with
    | refl hok =>
      rcases hinv.src_in hok with hv | hs
      · exact hv
      · exact absurd hs (List.not_mem_nil _)
    | step hq hn hok ih =>
      rcases hinv.closed _ ih _ hn hok with hv | hs
      · exact hv
      · exact absurd hs (List.not_mem_nil _)

theorem mem_pushNbrs {w h : Nat} {target visited : Grid Bool} {x y : Int}
    {stack : List Pos} {q : Pos} :
    q ∈ pushNbrs w h target visited x y stack ↔
      (q ∈ nbrs (x, y) ∧ InB w h q.1 q.2 ∧ gridGet false visited q.1 q.2 = false ∧
        gridGet false target q.1 q.2 = true) ∨ q ∈ stack := by
  unfold pushNbrs
  rw [List.mem_append, List.mem_reverse, List.mem_filter]
  constructor
  · intro hq
    rcases hq with ⟨hmem, hcond⟩ | hst
    · left
      simp only [Bool.and_eq_true, decide_eq_true_eq, Bool.not_eq_eq_eq_not,
        Bool.not_true] at hcond
      exact ⟨hmem, hcond.1.1, hcond.1.2, hcond.2⟩
    · right
      exact hst
  · intro hq
    rcases hq with ⟨hmem, hb, hv, ht⟩ | hst
    · left
      refine ⟨hmem, ?_⟩
      simp only [Bool.and_eq_true, decide_eq_true_eq, Bool.not_eq_eq_eq_not,
        Bool.not_true]
      exact ⟨⟨hb, hv⟩, ht⟩
    · right
      exact hst

theorem loopInv_skip_oob {w h : Nat} {target : Grid Bool} {src : Pos} {x y : Int}
    {rest : List Pos} {visited : Grid Bool} {filled : List Pos}
    (hinv : LoopInv w h target src ((x, y) :: rest) visited filled)
    (hnb : ¬ InB w h x y) : LoopInv w h target src rest visited filled := by
  refine ⟨hinv.rect, hinv.filled_iff, hinv.vis_reach, ?_, ?_, ?_⟩
  · intro p hp
    exact hinv.stack_reach p (List.mem_cons_of_mem _ hp)
  · intro p hv q hn hok
    rcases hinv.closed p hv q hn hok with h1 | h2
    · exact Or.inl h1
    · rcases List.mem_cons.mp h2 with heq | hmem
      · exact absurd (heq ▸ hok).1 hnb
      · exact Or.inr hmem
  · intro hok
    rcases hinv.src_in hok with h1 | h2
    · exact Or.inl h1
    · rcases List.mem_cons.mp h2 with heq | hmem
      · exact absurd (heq ▸ hok).1 hnb
      · exact Or.inr hmem

theorem loopInv_skip_done {w h : Nat} {target : Grid Bool} {src : Pos} {x y : Int}
    {rest : List Pos} {visited : Grid Bool} {filled : List Pos}
    (hinv : LoopInv w h target src ((x, y) :: rest) visited filled)
    (hskip : gridGet false visited x y = true ∨ gridGet false target x y = false) :
    LoopInv w h target src rest visited filled := by
  refine ⟨hinv.rect, hinv.filled_iff, hinv.vis_reach, ?_, ?_, ?_⟩
  · intro p hp
    exact hinv.stack_reach p (List.mem_cons_of_mem _ hp)
  · intro p hv q hn hok
    rcases hinv.closed p hv q hn hok with h1 | h2
    · exact Or.inl h1
    · rcases List.mem_cons.mp h2 with heq | hmem
      · rcases hskip with hv2 | ht2
        · exact Or.inl (heq ▸ hv2)
        · exact absurd (heq ▸ hok).2 (by rw [ht2]; simp)
      · exact Or.inr hmem
  · intro hok
    rcases hinv.src_in hok with h1 | h2
    · exact Or.inl h1
    · rcases List.mem_cons.mp h2 with heq | hmem
      · rcases hskip with hv2 | ht2
        · exact Or.inl (by rw [heq]; exact hv2)
        · exact absurd hok.2 (by rw [heq]; rw [ht2]; simp)
      · exact Or.inr hmem

theorem loopInv_mark {w h : Nat} {target : Grid Bool} {src : Pos} {x y : Int}
    {rest : List Pos} {visited : Grid Bool} {filled : List Pos}
    (hinv : LoopInv w h target src ((x, y) :: rest) visited filled)
    (hb : InB w h x y) (hvis : gridGet false visited x y = false)
    (htar : gridGet false target x y = true) :
    LoopInv w h target src
      (pushNbrs w h target (gridSet visited x y true) x y rest)
      (gridSet visited x y true) (filled ++ [(x, y)]) := by
  have hrect2 := rect_gridSet hinv.rect x y true
  have hself : gridGet false (gridSet visited x y true) x y = true :=
    gridGet_gridSet_self hinv.rect false true hb
  have hreach : Reach w h target src (x, y) := by
    rcases hinv.stack_reach _ (List.mem_cons_self _ _) with h1 | h2
    · exact h1
    · subst h2
      exact Reach.refl ⟨hb, htar⟩
  have hmono : ∀ p : Pos, gridGet false visited p.1 p.2 = true →
      gridGet false (gridSet visited x y true) p.1 p.2 = true := by
    intro p hp
    obtain ⟨a, b⟩ := p
    by_cases hpe : ((a : Int), (b : Int)) = (x, y)
    · obtain ⟨h1, h2⟩ := Prod.mk.inj hpe
      rw [show ((a, b) : Pos).1 = a from rfl, show ((a, b) : Pos).2 = b from rfl,
        h1, h2]
      exact hself
    · rw [gridGet_gridSet_ne false true hpe]
      exact hp
  refine ⟨hrect2, ?_, ?_, ?_, ?_, ?_⟩
  · intro p
    obtain ⟨a, b⟩ := p
    by_cases hpe : ((a : Int), (b : Int)) = (x, y)
    · obtain ⟨h1, h2⟩ := Prod.mk.inj hpe
      rw [show ((a, b) : Pos).1 = a from rfl, show ((a, b) : Pos).2 = b from rfl,
        h1, h2]
      rw [List.mem_append, List.mem_singleton]
      constructor
      · intro _
        exact hself
      · intro _
        exact Or.inr rfl
    · rw [gridGet_gridSet_ne false true hpe]
      rw [List.mem_append, List.mem_singleton]
      constructor
      · intro hc
        rcases hc with hc | hc
        · exact (hinv.filled_iff (a, b)).mp hc
        · exact absurd hc hpe
      · intro hc
        exact Or.inl ((hinv.filled_iff (a, b)).mpr hc)
  · intro p hp
    obtain ⟨a, b⟩ := p
    by_cases hpe : ((a : Int), (b : Int)) = (x, y)
    · rw [hpe]
      exact hreach
    · rw [gridGet_gridSet_ne false true hpe] at hp
      exact hinv.vis_reach (a, b) hp
  · intro p hp
    rcases mem_pushNbrs.mp hp with ⟨hn, hbq, hvq, htq⟩ | hrest
    · exact Or.inl (Reach.step hreach hn ⟨hbq, htq⟩)
    · exact hinv.stack_reach p (List.mem_cons_of_mem _ hrest)
  · intro p hp q hn hok
    obtain ⟨a, b⟩ := p
    by_cases hpe : ((a : Int), (b : Int)) = (x, y)
    · rw [hpe] at hn
      by_cases hqv : gridGet false (gridSet visited x y true) q.1 q.2 = true
      · exact Or.inl hqv
      · refine Or.inr (mem_pushNbrs.mpr (Or.inl ⟨hn, hok.1, ?_, hok.2⟩))
        cases hgv : gridGet false (gridSet visited x y true) q.1 q.2
        · rfl
        · exact absurd hgv hqv
    · rw [gridGet_gridSet_ne false true hpe] at hp
      rcases hinv.closed (a, b) hp q hn hok with h1 | h2
      · exact Or.inl (hmono q h1)
      · rcases List.mem_cons.mp h2 with heq | hmem
        · subst heq
          exact Or.inl hself
        · exact Or.inr (mem_pushNbrs.mpr (Or.inr hmem))
  · intro hok
    rcases hinv.src_in hok with h1 | h2
    · exact Or.inl (hmono src h1)
    · rcases List.mem_cons.mp h2 with heq | hmem
      · subst heq
        exact Or.inl hself
      · exact Or.inr (mem_pushNbrs.mpr (Or.inr hmem))

theorem floodLoop_correct {w h : Nat} {target : Grid Bool} {src : Pos} :
    ∀ (fuel : Nat) (stack : List Pos) (visited : Grid Bool) (filled out : List Pos),
      LoopInv w h target src stack visited filled →
      floodLoop w h target fuel stack visited filled = some out →
      ∀ p : Pos, p ∈ out ↔ Reach w h target src p := by
  intro fuel
  induction fuel with
  | zero =>
    intro stack visited filled out hinv hrun
    match stack, hinv, hrun with
    | [], hinv, hrun =>
      have hfo : filled = out := by
        simp only [floodLoop] at hrun
        exact Option.some.inj hrun
      exact hfo ▸ loopInv_final hinv
    | (a, b) :: rest, _, hrun =>
      simp [floodLoop] at hrun
  | succ n ih =>
    intro stack visited filled out hinv hrun
    match stack, hinv, hrun with
    | [], hinv, hrun =>
      have hfo : filled = out := by
        simp only [floodLoop] at hrun
        exact Option.some.inj hrun
      exact hfo ▸ loopInv_final hinv
    | (x, y) :: rest, hinv, hrun =>
      rw [floodLoop] at hrun
      by_cases hb : InB w h x y
      · rw [if_neg (not_not_intro hb)] at hrun
        by_cases hskip : gridGet false visited x y = true ∨
            gridGet false target x y = false
        · rw [if_pos hskip] at hrun
          exact ih rest visited filled out (loopInv_skip_done hinv hskip) hrun
        · rw [if_neg hskip] at hrun
          push_neg at hskip
          have hvis : gridGet false visited x y = false := by
            cases hgv : gridGet false visited x y
            · rfl
            · exact absurd hgv hskip.1
          have htar : gridGet false target x y = true := by
            cases hgt : gridGet false target x y
            · exact absurd hgt hskip.2
            · rfl
          exact ih _ _ _ out (loopInv_mark hinv hb hvis htar) hrun
      · rw [if_pos hb] at hrun
        exact ih rest visited filled out (loopInv_skip_oob hinv hb) hrun

theorem numpyFloodFill_mem (target : Grid Bool) (sx sy : Int) :
    ∀ p : Pos, p ∈ numpyFloodFill target sx sy ↔
      Reach (gridW target) (gridH target) target (sx, sy) p := by
  have hsome : (floodLoop (gridW target) (gridH target) target (ffFuel target)
      [(sx, sy)] (mkGrid false (gridW target) (gridH target)) []).isSome = true := by
    apply floodLoop_isSome
    · exact rect_mkGrid false _ _
    · have := unvisitedCount_le (gridW target) (gridH target) target
        (mkGrid false (gridW target) (gridH target))
      unfold ffFuel
      simp
      omega
  obtain ⟨out, hout⟩ := Option.isSome_iff_exists.mp hsome
  have hinit : LoopInv (gridW target) (gridH target) target (sx, sy)
      [(sx, sy)] (mkGrid false (gridW target) (gridH target)) [] := by
    refine ⟨rect_mkGrid false _ _, ?_, ?_, ?_, ?_, ?_⟩
    · intro p
      rw [gridGet_mkGrid]
      simp
    · intro p hp
      rw [gridGet_mkGrid] at hp
      simp at hp
    · intro p hp
      exact Or.inr (List.mem_singleton.mp hp)
    · intro p hp q hn hok
      rw [gridGet_mkGrid] at hp
      simp at hp
    · intro _
      exact Or.inr (List.mem_singleton.mpr rfl)
  intro p
  have hval : numpyFloodFill target sx sy = out := by
    unfold numpyFloodFill
    rw [hout]
    rfl
  rw [hval]
  exact floodLoop_correct (ffFuel target) _ _ _ out hinit hout p

/-- `ImageCanvas.flood_fill` builds this Boolean mask from the image:
`True` exactly where the pixel color equals the color currently at the
seed (exact equality, `image.pixelColor(x, y) == target_color`). -/
def buildTargetMask (image : Grid Color) (sx sy : Int) : Grid Bool :=
  image.map (fun row => row.map (fun c => decide (c = gridGet (0, 0, 0) image sx sy)))

/-- `ImageCanvas.flood_fill`: compute the filled pixels with
`_numpy_flood_fill` over the equal-color mask, then recolor exactly the
filled pixels with the fill color; returns `(filled_pixels, new mask)`. -/
def floodFill (image : Grid Color) (sx sy : Int) (fillColor : Color) :
    List Pos × Grid Color :=
  let pixels := numpyFloodFill (buildTargetMask image sx sy) sx sy
  (pixels, pixels.foldl (fun m p => gridSet m p.1 p.2 fillColor) image)

theorem buildTargetMask_gridH (image : Grid Color) (sx sy : Int) :
    gridH (buildTargetMask image sx sy) = gridH image := by
  unfold buildTargetMask gridH
  rw [List.length_map]

theorem buildTargetMask_gridW (image : Grid Color) (sx sy : Int) :
    gridW (buildTargetMask image sx sy) = gridW image := by
  unfold buildTargetMask gridW
  cases image with
  | nil => rfl
  | cons r rest =>
    rw [List.map_cons]
    show (r.map _).length = r.length
    rw [List.length_map]

theorem buildTargetMask_rect {w h : Nat} {image : Grid Color}
    (hrect : Rect w h image) (sx sy : Int) :
    Rect w h (buildTargetMask image sx sy) := by
  constructor
  · unfold buildTargetMask
    rw [List.length_map]
    exact hrect.1
  · intro row hrow
    unfold buildTargetMask at hrow
    obtain ⟨r, hr, hmap⟩ := List.mem_map.mp hrow
    rw [← hmap, List.length_map]
    exact hrect.2 r hr

theorem gridGet_pos {α : Type} (d : α) (g : Grid α) {x y : Int}
    (hx0 : 0 ≤ x) (hy0 : 0 ≤ y) :
    gridGet d g x y = (g.getD y.toNat []).getD x.toNat d := by
  unfold gridGet
  rw [if_pos ⟨hx0, hy0⟩]

theorem buildTargetMask_get {image : Grid Color}
    (hrect : Rect (gridW image) (gridH image) image) (sx sy : Int) {x y : Int}
    (hin : InB (gridW image) (gridH image) x y) :
    gridGet false (buildTargetMask image sx sy) x y =
      decide (gridGet (0, 0, 0) image x y = gridGet (0, 0, 0) image sx sy) := by
  obtain ⟨hx0, hxw, hy0, hyh⟩ := hin
  have hyn : y.toNat < image.length := by
    have hlen : image.length = gridH image := rfl
    omega
  have hrowlen : (image.get ⟨y.toNat, hyn⟩).length = gridW image :=
    hrect.2 _ (List.get_mem image _ _)
  have hxn : x.toNat < (image.get ⟨y.toNat, hyn⟩).length := by
    rw [hrowlen]
    omega
  have hmaskrow : (buildTargetMask image sx sy).getD y.toNat [] =
      (image.get ⟨y.toNat, hyn⟩).map
        (fun c => decide (c = gridGet (0, 0, 0) image sx sy)) := by
    unfold buildTargetMask
    rw [List.getD_eq_getElem?_getD, List.getElem?_map, List.getElem?_eq_getElem hyn]
    rfl
  have himgrow : image.getD y.toNat [] = image.get ⟨y.toNat, hyn⟩ := by
    rw [List.getD_eq_getElem?_getD, List.getElem?_eq_getElem hyn]
    rfl
  rw [gridGet_pos false (buildTargetMask image sx sy) hx0 hy0,
    gridGet_pos (0, 0, 0) image hx0 hy0, hmaskrow, himgrow,
    List.getD_eq_getElem?_getD, List.getElem?_map, List.getElem?_eq_getElem hxn,
    List.getD_eq_getElem?_getD, List.getElem?_eq_getElem hxn]
  rfl

/-- Specification-side notion for the flood-fill contract: `p` lies in
the 4-connected component of the seed among pixels whose value equals
the seed's original value exactly. -/
inductive SameValueComponent (image : Grid Color) (src : Pos) : Pos → Prop
  | refl : InB (gridW image) (gridH image) src.1 src.2 →
      SameValueComponent image src src
  | step {q r : Pos} : SameValueComponent image src q → r ∈ nbrs q →
      InB (gridW image) (gridH image) r.1 r.2 →
      gridGet (0, 0, 0) image r.1 r.2 = gridGet (0, 0, 0) image src.1 src.2 →
      SameValueComponent image src r

theorem okCell_buildTargetMask {image : Grid Color}
    (hrect : Rect (gridW image) (gridH image) image) (sx sy : Int) (p : Pos) :
    OkCell (gridW image) (gridH image) (buildTargetMask image sx sy) p ↔
      (InB (gridW image) (gridH image) p.1 p.2 ∧
        gridGet (0, 0, 0) image p.1 p.2 = gridGet (0, 0, 0) image sx sy) := by
  unfold OkCell
  constructor
  · rintro ⟨hb, ht⟩
    refine ⟨hb, ?_⟩
    rw [buildTargetMask_get hrect sx sy hb] at ht
    exact of_decide_eq_true ht
  · rintro ⟨hb, hv⟩
    refine ⟨hb, ?_⟩
    rw [buildTargetMask_get hrect sx sy hb]
    exact decide_eq_true hv

theorem reach_iff_sameValue {image : Grid Color}
    (hrect : Rect (gridW image) (gridH image) image) {sx sy : Int}
    (hin : InB (gridW image) (gridH image) sx sy) (p : Pos) :
    Reach (gridW image) (gridH image) (buildTargetMask image sx sy) (sx, sy) p ↔
      SameValueComponent image (sx, sy) p := by
  constructor
  · intro hr
    induction hr with
    | refl hok =>
      exact SameValueComponent.refl
        ((okCell_buildTargetMask hrect sx sy _).mp hok).1
    | step hq hn hok ih =>
      obtain ⟨hb, hv⟩ := (okCell_buildTargetMask hrect sx sy _).mp hok
      exact SameValueComponent.step ih hn hb hv
  · intro hs
    induction hs with
    | refl hb =>
      exact Reach.refl ((okCell_buildTargetMask hrect sx sy _).mpr ⟨hb, rfl⟩)
    | step hq hn hb hv ih =>
      exact Reach.step ih hn ((okCell_buildTargetMask hrect sx sy _).mpr ⟨hb, hv⟩)

/-- C5: for an in-bounds seed on a rectangular image, `flood_fill`
returns exactly the full 4-connected component, containing the seed, of
pixels whose value equals the seed's original value by exact equality;
it never includes a differently-valued or out-of-bounds pixel (the
right-to-left direction of the equivalence forces membership in the
equal-valued in-bounds component). -/
theorem c5_flood_fill_component (image : Grid Color) (fillColor : Color) (sx sy : Int)
    (hrect : Rect (gridW image) (gridH image) image)
    (hin : InB (gridW image) (gridH image) sx sy) :
    (sx, sy) ∈ (floodFill image sx sy fillColor).1 ∧
    ∀ p : Pos, p ∈ (floodFill image sx sy fillColor).1 ↔
      SameValueComponent image (sx, sy) p := by
  have hW := buildTargetMask_gridW image sx sy
  have hH := buildTargetMask_gridH image sx sy
  have hmem := numpyFloodFill_mem (buildTargetMask image sx sy) sx sy
  rw [hW, hH] at hmem
  have hiff : ∀ p : Pos, p ∈ (floodFill image sx sy fillColor).1 ↔
      SameValueComponent image (sx, sy) p := by
    intro p
    have h1 : (floodFill image sx sy fillColor).1 =
        numpyFloodFill (buildTargetMask image sx sy) sx sy := rfl
    rw [h1, hmem p, reach_iff_sameValue hrect hin p]
  exact ⟨(hiff (sx, sy)).mpr (SameValueComponent.refl hin), hiff⟩

/-- `class Segmentation` of visualize.py (id, RGB color, pixel list,
border pixel list; `border_pixels` starts empty). -/
structure Segmentation where
  id : Nat
  color : Color
  pixels : List Pos
  border_pixels : List Pos
deriving Repr, DecidableEq

/-- `class Drawing` of visualize.py (id, polyline pixels, pen thickness). -/
structure Drawing where
  id : Nat
  pixels : List Pos
  thickness : Nat
deriving Repr, DecidableEq

/-- A Python dict with integer keys, insertion-ordered. -/
abbrev Dict (α : Type) := List (Nat × α)

/-- Python `d.get(k)` / `d[k]`. -/
def dictFind {α : Type} (d : Dict α) (k : Nat) : Option α :=
  (d.find? (fun e => e.1 == k)).map Prod.snd

/-- Python `k in d`. -/
def dictHas {α : Type} (d : Dict α) (k : Nat) : Bool :=
  d.any (fun e => e.1 == k)

/-- Python `d[k] = v`: overwrite in place when the key exists, else
append at the end (insertion order). -/
def dictInsert {α : Type} (d : Dict α) (k : Nat) (v : α) : Dict α :=
  if dictHas d k then d.map (fun e => if e.1 == k then (k, v) else e)
  else d ++ [(k, v)]

/-- Python `if k in d: del d[k]`. -/
def dictErase {α : Type} (d : Dict α) (k : Nat) : Dict α :=
  d.filter (fun e => !(e.1 == k))

/-- One segmentation's writes in `update_pixel_labels`: label every
in-bounds pixel of the segmentation with its dictionary key. -/
def writePixels (g : Grid Nat) (k : Nat) (pixels : List Pos) : Grid Nat :=
  pixels.foldl (fun acc p => gridSet acc p.1 p.2 k) g

/-- `ImageCanvas.update_pixel_labels`: clear the label array to zero,
then write each segmentation's key over its in-bounds pixels, in
dictionary (insertion) order; later writes win on overlap. -/
def updatePixelLabels (w h : Nat) (store : Dict Segmentation) : Grid Nat :=
  store.foldl (fun acc e => writePixels acc e.1 e.2.pixels) (mkGrid 0 w h)

/-- `ImageCanvas.get_pixel_label`: the stored label, 0 out of bounds. -/
def getPixelLabel (g : Grid Nat) (x y : Int) : Nat := gridGet 0 g x y

theorem writePixels_rect {w h : Nat} {g : Grid Nat} (hg : Rect w h g)
    (k : Nat) (pixels : List Pos) : Rect w h (writePixels g k pixels) := by
  induction pixels generalizing g with
  | nil => exact hg
  | cons p ps ih => exact ih (rect_gridSet hg p.1 p.2 k)

theorem getPixelLabel_writePixels {w h : Nat} {g : Grid Nat} (hg : Rect w h g)
    (k : Nat) (pixels : List Pos) {x y : Int} (hin : InB w h x y) :
    getPixelLabel (writePixels g k pixels) x y =
      if (x, y) ∈ pixels then k else getPixelLabel g x y := by
  induction pixels generalizing g with
  | nil => simp [writePixels]
  | cons p ps ih =>
    obtain ⟨a, b⟩ := p
    have hstep : writePixels g k ((a, b) :: ps) =
        writePixels (gridSet g a b k) k ps := rfl
    rw [hstep, ih (rect_gridSet hg a b k)]
    by_cases hps : (x, y) ∈ ps
    · rw [if_pos hps, if_pos (List.mem_cons_of_mem _ hps)]
    · rw [if_neg hps]
      by_cases hpe : ((x : Int), (y : Int)) = (a, b)
      · obtain ⟨h1, h2⟩ := Prod.mk.inj hpe
        subst h1
        subst h2
        rw [if_pos (List.mem_cons_self _ _)]
        exact gridGet_gridSet_self hg 0 k hin
      · rw [if_neg (by
          intro hc
          rcases List.mem_cons.mp hc with hc1 | hc2
          · exact hpe hc1
          · exact hps hc2)]
        unfold getPixelLabel
        exact gridGet_gridSet_ne 0 k hpe

/-- No two stored segmentations share a pixel. -/
def DisjointPixels (store : Dict Segmentation) : Prop :=
  store.Pairwise (fun a b => ∀ p : Pos, p ∈ a.2.pixels → p ∉ b.2.pixels)

theorem owner_unique {store : Dict Segmentation} (hdisj : DisjointPixels store)
    {e1 e2 : Nat × Segmentation} {p : Pos}
    (h1 : e1 ∈ store) (h2 : e2 ∈ store) (hp1 : p ∈ e1.2.pixels)
    (hp2 : p ∈ e2.2.pixels) : e1 = e2 := by
  induction store with
  | nil => exact absurd h1 (List.not_mem_nil _)
  | cons a rest ih =>
    obtain ⟨ha, hrest⟩ := List.pairwise_cons.mp hdisj
    rcases List.mem_cons.mp h1 with he1 | he1
    · rcases List.mem_cons.mp h2 with he2 | he2
      · rw [he1, he2]
      · exact absurd (he1 ▸ hp1) (fun hc => ha e2 he2 p hc hp2)
    · rcases List.mem_cons.mp h2 with he2 | he2
      · exact absurd (he2 ▸ hp2) (fun hc => ha e1 he1 p hc hp1)
      · exact ih hrest he1 he2

theorem find_owner_eq {store : Dict Segmentation} (hdisj : DisjointPixels store)
    {e : Nat × Segmentation} {p : Pos} (he : e ∈ store) (hp : p ∈ e.2.pixels) :
    store.find? (fun e2 => decide (p ∈ e2.2.pixels)) = some e := by
  induction store with
  | nil => exact absurd he (List.not_mem_nil _)
  | cons a rest ih =>
    obtain ⟨ha, hrest⟩ := List.pairwise_cons.mp hdisj
    by_cases hown : p ∈ a.2.pixels
    · rw [List.find?_cons_of_pos _ (by simpa using hown)]
      have : a = e := owner_unique hdisj (List.mem_cons_self _ _) he hown hp
      rw [this]
    · rw [List.find?_cons_of_neg _ (by simpa using hown)]
      rcases List.mem_cons.mp he with he1 | he1
      · exact absurd (he1 ▸ hp) hown
      · exact ih hrest he1

theorem getPixelLabel_foldWrite {w h : Nat} (store : Dict Segmentation) :
    ∀ (g : Grid Nat), Rect w h g → DisjointPixels store →
      ∀ {x y : Int}, InB w h x y →
      getPixelLabel (store.foldl (fun acc e => writePixels acc e.1 e.2.pixels) g) x y =
        (((store.find? (fun e => decide ((x, y) ∈ e.2.pixels))).map Prod.fst).getD
          (getPixelLabel g x y)) := by
  induction store with
  | nil =>
    intro g hg _ x y hin
    rfl
  | cons e rest ih =>
    intro g hg hdisj x y hin
    obtain ⟨he, hrest⟩ := List.pairwise_cons.mp hdisj
    rw [List.foldl_cons, ih _ (writePixels_rect hg _ _) hrest hin]
    by_cases hmem : (x, y) ∈ e.2.pixels
    · have hnone : rest.find? (fun e2 => decide ((x, y) ∈ e2.2.pixels)) = none := by
        rw [List.find?_eq_none]
        intro e2 he2
        simp only [decide_eq_true_eq]
        exact he e2 he2 (x, y) hmem
      rw [hnone, List.find?_cons_of_pos _ (by simpa using hmem)]
      show getPixelLabel (writePixels g e.1 e.2.pixels) x y = e.1
      rw [getPixelLabel_writePixels hg e.1 e.2.pixels hin, if_pos hmem]
    · rw [List.find?_cons_of_neg _ (by simpa using hmem)]
      cases hrf : rest.find? (fun e2 => decide ((x, y) ∈ e2.2.pixels)) with
      | some e2 => rfl
      | none =>
        show getPixelLabel (writePixels g e.1 e.2.pixels) x y = getPixelLabel g x y
        rw [getPixelLabel_writePixels hg e.1 e.2.pixels hin, if_neg hmem]

theorem getPixelLabel_updatePixelLabels {w h : Nat} {store : Dict Segmentation}
    (hdisj : DisjointPixels store) {x y : Int} (hin : InB w h x y) :
    getPixelLabel (updatePixelLabels w h store) x y =
      (((store.find? (fun e => decide ((x, y) ∈ e.2.pixels))).map Prod.fst).getD 0) := by
  unfold updatePixelLabels
  rw [getPixelLabel_foldWrite store _ (rect_mkGrid 0 w h) hdisj hin]
  unfold getPixelLabel
  rw [gridGet_mkGrid]

theorem dict_key_inj {α : Type} {d : Dict α} (hnodup : (d.map Prod.fst).Nodup)
    {e1 e2 : Nat × α} (h1 : e1 ∈ d) (h2 : e2 ∈ d) (hk : e1.1 = e2.1) : e1 = e2 := by
  induction d with
  | nil => exact absurd h1 (List.not_mem_nil _)
  | cons a rest ih =>
    rw [List.map_cons, List.nodup_cons] at hnodup
    rcases List.mem_cons.mp h1 with he1 | he1
    · rcases List.mem_cons.mp h2 with he2 | he2
      · rw [he1, he2]
      · exfalso
        apply hnodup.1
        rw [← he1, hk]
        exact List.mem_map_of_mem Prod.fst he2
    · rcases List.mem_cons.mp h2 with he2 | he2
      · exfalso
        apply hnodup.1
        rw [← he2, ← hk]
        exact List.mem_map_of_mem Prod.fst he1
      · exact ih hnodup.2 he1 he2

/-- C1: grid/region consistency.  The pixel-label grid that
`update_pixel_labels` rebuilds after any core operation assigns, at
every in-bounds coordinate, a stored segmentation's id exactly on that
segmentation's pixels, and 0 exactly where no stored segmentation owns
the coordinate (for a well-formed store: positive ids, no duplicate
keys, pairwise-disjoint pixel sets). -/
theorem c1_grid_region_consistency (w h : Nat) (store : Dict Segmentation)
    (hnodup : (store.map Prod.fst).Nodup)
    (hpos : ∀ e ∈ store, 0 < e.1)
    (hdisj : DisjointPixels store)
    (x y : Int) (hin : InB w h x y) :
    (∀ e ∈ store, (getPixelLabel (updatePixelLabels w h store) x y = e.1 ↔
      (x, y) ∈ e.2.pixels)) ∧
    (getPixelLabel (updatePixelLabels w h store) x y = 0 ↔
      ∀ e ∈ store, (x, y) ∉ e.2.pixels) := by
  have hlab := getPixelLabel_updatePixelLabels (w := w) (h := h) hdisj hin
  constructor
  · intro e hestore
    constructor
    · intro hl
      rw [hlab] at hl
      cases hrf : store.find? (fun e2 => decide ((x, y) ∈ e2.2.pixels)) with
      | none =>
        rw [hrf] at hl
        simp only [Option.map_none', Option.getD_none] at hl
        exact absurd hl (by have := hpos e hestore; omega)
      | some e2 =>
        rw [hrf] at hl
        simp only [Option.map_some', Option.getD_some] at hl
        have he2store : e2 ∈ store := List.mem_of_find?_eq_some hrf
        have he2own : (x, y) ∈ e2.2.pixels := by
          have := List.find?_some hrf
          simpa using this
        have : e2 = e := dict_key_inj hnodup he2store hestore hl
        rw [← this]
        exact he2own
    · intro hmem
      rw [hlab, find_owner_eq hdisj hestore hmem]
      rfl
  · constructor
    · intro hl
      intro e hestore hmem
      rw [hlab, find_owner_eq hdisj hestore hmem] at hl
      simp only [Option.map_some', Option.getD_some] at hl
      exact absurd hl (by have := hpos e hestore; omega)
    · intro hnone
      rw [hlab]
      have : store.find? (fun e2 => decide ((x, y) ∈ e2.2.pixels)) = none := by
        rw [List.find?_eq_none]
        intro e2 he2
        simp only [decide_eq_true_eq]
        exact hnone e2 he2
      rw [this]
      rfl

theorem any_congr {α : Type} {l : List α} {p q : α → Bool}
    (h : ∀ a ∈ l, p a = q a) : l.any p = l.any q := by
  induction l with
  | nil => rfl
  | cons a rest ih =>
    rw [List.any_cons, List.any_cons, h a (List.mem_cons_self _ _),
      ih (fun b hb => h b (List.mem_cons_of_mem _ hb))]

/-- `ImageCanvas.compute_segmentation_borders`: a pixel of the
segmentation is kept (in order) when some 4-neighbor is in bounds,
outside the segmentation's pixel set, and has a label different from
the segmentation's id in the pixel-label grid. -/
def computeBorders (w h : Nat) (labels : Grid Nat) (seg : Segmentation) : List Pos :=
  seg.pixels.filter (fun p =>
    (nbrs p).any (fun q =>
      decide (InB w h q.1 q.2) && decide (q ∉ seg.pixels)
        && decide (getPixelLabel labels q.1 q.2 ≠ seg.id)))

/-- C7: border-extraction characterization.  When the label grid is
consistent with the segmentation (its id is stored exactly on its
pixels), the computed border list is exactly the sublist of pixels with
at least one in-bounds 4-neighbor whose grid label differs from the
segmentation's id; border pixels are always a subset of the pixels; and
out-of-bounds neighbors never matter, so a region covering every
in-bounds coordinate has an empty border list. -/
theorem c7_border_characterization (w h : Nat) (labels : Grid Nat) (seg : Segmentation)
    (hcons : ∀ q : Pos, InB w h q.1 q.2 →
      (getPixelLabel labels q.1 q.2 = seg.id ↔ q ∈ seg.pixels)) :
    computeBorders w h labels seg =
      seg.pixels.filter (fun p => (nbrs p).any (fun q =>
        decide (InB w h q.1 q.2) && decide (getPixelLabel labels q.1 q.2 ≠ seg.id))) ∧
    (∀ p ∈ computeBorders w h labels seg, p ∈ seg.pixels) ∧
    ((∀ q : Pos, InB w h q.1 q.2 → q ∈ seg.pixels) →
      computeBorders w h labels seg = []) := by
  refine ⟨?_, ?_, ?_⟩
  · unfold computeBorders
    apply List.filter_congr
    intro p _
    apply any_congr
    intro q _
    by_cases hb : InB w h q.1 q.2
    · by_cases hl : getPixelLabel labels q.1 q.2 = seg.id
      · simp [hb, hl]
      · have hq : q ∉ seg.pixels := fun hc => hl ((hcons q hb).mpr hc)
        simp [hb, hl, hq]
    · simp [hb]
  · intro p hp
    exact List.mem_of_mem_filter hp
  · intro htile
    unfold computeBorders
    rw [List.filter_eq_nil_iff]
    intro p _
    rw [Bool.not_eq_true, List.any_eq_false]
    intro q _
    by_cases hb : InB w h q.1 q.2
    · have hq : q ∈ seg.pixels := htile q hb
      have hl : getPixelLabel labels q.1 q.2 = seg.id := (hcons q hb).mpr hq
      simp [hb, hq, hl]
    · simp [hb]

/-- Abstract stand-ins for the QPainter line rasterization used when a
stroke is drawn, undone (black lines at the recorded thickness) or
redone (white lines).  Rendering is a UI collaborator outside the
region-labeling core; no claim constrains the mask contents it
produces. -/
structure Renderers where
  strokeLines : List Pos → Nat → Grid Color → Grid Color
  blackLines : List Pos → Nat → Grid Color → Grid Color
  whiteLines : List Pos → Nat → Grid Color → Grid Color

/-- One tagged entry of the undo/redo stacks
(`{'type': ..., 'data': ...}` in `push_to_undo_stack`). -/
inductive HistoryEntry where
  | segmentation (seg : Segmentation)
  | drawing (d : Drawing)
  | merge (old : List Segmentation) (merged : Segmentation)
deriving Repr, DecidableEq

/-- The region-labeling state of `ImageCanvas`: mask bitmap,
segmentation and drawing dictionaries with their id counters, the two
history stacks, the selection set (modelled as a duplicate-free list in
iteration order), and the pixel-label array. -/
structure Canvas where
  width : Nat
  height : Nat
  mask : Grid Color
  segmentations : Dict Segmentation
  next_seg_id : Nat
  drawings : Dict Drawing
  next_draw_id : Nat
  undo_stack : List HistoryEntry
  redo_stack : List HistoryEntry
  selected : List Nat
  pixel_labels : Grid Nat
deriving Repr, DecidableEq

/-- Python `set.remove` on the selection. -/
def selRemove (sel : List Nat) (i : Nat) : List Nat :=
  sel.filter (fun j => !(j == i))

/-- `ImageCanvas.is_pixel_black`: false out of the mask's bounds, else
true when all three channels are below 10 ("black or very dark"). -/
def isPixelBlack (mask : Grid Color) (x y : Int) : Bool :=
  if decide (x < 0) || decide ((gridW mask : Int) ≤ x) || decide (y < 0)
      || decide ((gridH mask : Int) ≤ y) then false
  else
    decide ((gridGet (0, 0, 0) mask x y).1 < 10)
      && decide ((gridGet (0, 0, 0) mask x y).2.1 < 10)
      && decide ((gridGet (0, 0, 0) mask x y).2.2 < 10)

/-- Set each listed pixel to one color on the mask
(`set_segmentation_pixels_to_black`, `redraw_segmentation_pixels`,
`redraw_single_segmentation`, and the recolor step of `flood_fill`;
out-of-bounds writes are dropped). -/
def setPixelsColor (mask : Grid Color) (col : Color) (pixels : List Pos) : Grid Color :=
  pixels.foldl (fun m p => gridSet m p.1 p.2 col) mask

/-- `ImageCanvas.flood_fill_at_position`, after widget-to-image
coordinate conversion: when the clicked pixel is black, flood fill with
the supplied (source: random) color; if pixels were filled, create a
`Segmentation` under the next id, compute its borders against the
current pixel-label grid, store it, push a `'segmentation'` entry
(clearing the redo stack), and rebuild the pixel-label grid.  When the
clicked pixel is not black, nothing happens. -/
def floodFillAtPosition (c : Canvas) (x y : Int) (fillColor : Color) : Canvas :=
  if isPixelBlack c.mask x y then
    let res := floodFill c.mask x y fillColor
    if res.1.isEmpty then
      { c with mask := res.2 }
    else
      let seg0 : Segmentation :=
        { id := c.next_seg_id, color := fillColor, pixels := res.1,
          border_pixels := [] }
      let seg : Segmentation :=
        { seg0 with
            border_pixels := computeBorders c.width c.height c.pixel_labels seg0 }
      let store := dictInsert c.segmentations c.next_seg_id seg
      { c with
          mask := res.2,
          segmentations := store,
          next_seg_id := c.next_seg_id + 1,
          undo_stack := c.undo_stack ++ [HistoryEntry.segmentation seg],
          redo_stack := [],
          pixel_labels := updatePixelLabels c.width c.height store }
  else c

/-- `ImageCanvas.remove_segmentation`: blacken the region's pixels on
the mask, delete it from the store and the selection, clear both
history stacks, and rebuild the pixel-label grid. -/
def removeSegmentation (c : Canvas) (seg : Segmentation) : Canvas :=
  let store := dictErase c.segmentations seg.id
  { c with
      mask := setPixelsColor c.mask (0, 0, 0) seg.pixels,
      segmentations := store,
      selected := selRemove c.selected seg.id,
      undo_stack := [],
      redo_stack := [],
      pixel_labels := updatePixelLabels c.width c.height store }

/-- A finished freehand stroke (mouse press through release in drawing
or remove mode): a `Drawing` is allocated under the next drawing id and
its line rendered on the mask; when it has any pixels it is stored and
a `'drawing'` entry is pushed (clearing the redo stack). -/
def applyStroke (R : Renderers) (c : Canvas) (pts : List Pos) (th : Nat) : Canvas :=
  let d : Drawing := { id := c.next_draw_id, pixels := pts, thickness := th }
  if pts.isEmpty then
    { c with
        next_draw_id := c.next_draw_id + 1,
        mask := R.strokeLines pts th c.mask }
  else
    { c with
        next_draw_id := c.next_draw_id + 1,
        mask := R.strokeLines pts th c.mask,
        drawings := dictInsert c.drawings d.id d,
        undo_stack := c.undo_stack ++ [HistoryEntry.drawing d],
        redo_stack := [] }

/-- `ImageCanvas.merge_selected_segmentations`: refuse with fewer than
two selected ids; otherwise concatenate the pixel lists and the
border-pixel lists of the selected regions present in the store, in
selection iteration order, and if any pixels were collected, build the
merged `Segmentation` under the next id with the concatenated borders
(no recomputation), delete the constituents, store the merged region,
clear the selection, push a `'merge'` entry (clearing the redo stack),
rebuild the pixel-label grid, and redraw the merged region's pixels in
its new color on the mask. -/
def mergeSelected (c : Canvas) (newColor : Color) : Canvas :=
  if c.selected.length < 2 then c
  else
    let oldSegs := c.selected.filterMap (fun i => dictFind c.segmentations i)
    let allPixels := (oldSegs.map Segmentation.pixels).join
    let allBorders := (oldSegs.map Segmentation.border_pixels).join
    if allPixels.isEmpty then c
    else
      let merged : Segmentation :=
        { id := c.next_seg_id, color := newColor, pixels := allPixels,
          border_pixels := allBorders }
      let store := dictInsert
        (c.selected.foldl (fun st i => dictErase st i) c.segmentations)
        c.next_seg_id merged
      { c with
          segmentations := store,
          next_seg_id := c.next_seg_id + 1,
          selected := [],
          undo_stack := c.undo_stack ++ [HistoryEntry.merge oldSegs merged],
          redo_stack := [],
          pixel_labels := updatePixelLabels c.width c.height store,
          mask := setPixelsColor c.mask newColor allPixels }

/-- `max(d.keys())` over a non-empty dict. -/
def maxKey {α : Type} (d : Dict α) : Nat :=
  (d.map Prod.fst).foldl max 0

/-- `ImageCanvas.undo_last_operation`: pop the newest undo entry (no-op
on an empty stack).  A `'segmentation'` entry removes the stored region
with the greatest id (when the store is non-empty), blackens its
pixels, and moves the entry to the redo stack; with an empty store the
entry is popped and dropped.  A `'drawing'` entry removes the drawing
with the greatest id and repaints black lines over it; same guard.  A
`'merge'` entry deletes the merged region and reinserts the recorded
constituents.  The pixel-label grid is rebuilt afterwards. -/
def undoApply (R : Renderers) (c : Canvas) : HistoryEntry → Canvas
  | HistoryEntry.segmentation seg =>
    if c.segmentations.isEmpty then
      { c with
          pixel_labels := updatePixelLabels c.width c.height c.segmentations }
    else
      let k := maxKey c.segmentations
      let removed := dictFind c.segmentations k
      let store := dictErase c.segmentations k
      { c with
          segmentations := store,
          mask := setPixelsColor c.mask (0, 0, 0)
            ((removed.map Segmentation.pixels).getD []),
          redo_stack := c.redo_stack ++ [HistoryEntry.segmentation seg],
          pixel_labels := updatePixelLabels c.width c.height store }
  | HistoryEntry.drawing d =>
    if c.drawings.isEmpty then
      { c with
          pixel_labels := updatePixelLabels c.width c.height c.segmentations }
    else
      let k := maxKey c.drawings
      let removed := dictFind c.drawings k
      let ds := dictErase c.drawings k
      { c with
          drawings := ds,
          mask := (removed.map
            (fun d2 => R.blackLines d2.pixels d2.thickness c.mask)).getD c.mask,
          redo_stack := c.redo_stack ++ [HistoryEntry.drawing d],
          pixel_labels := updatePixelLabels c.width c.height c.segmentations }
  | HistoryEntry.merge old merged =>
    let store1 := dictErase c.segmentations merged.id
    let store := old.foldl (fun st s => dictInsert st s.id s) store1
    { c with
        segmentations := store,
        redo_stack := c.redo_stack ++ [HistoryEntry.merge old merged],
        pixel_labels := updatePixelLabels c.width c.height store }

/-- `undo_last_operation` itself: pop the newest entry (after popping,
the stack no longer holds it) and apply its reversal. -/
def undoOp (R : Renderers) (c : Canvas) : Canvas :=
  match c.undo_stack.getLast? with
  | none => c
  | some entry =>
    undoApply R { c with undo_stack := c.undo_stack.dropLast } entry

/-- `ImageCanvas.redo_last_operation`: pop the newest redo entry (no-op
on an empty stack).  A `'segmentation'` entry restores the recorded
region and repaints its pixels in its color; a `'drawing'` entry
restores the drawing and repaints white lines; a `'merge'` entry
deletes the recorded constituents and restores the merged region.  The
entry moves back to the undo stack and the pixel-label grid is rebuilt. -/
def redoApply (R : Renderers) (c : Canvas) : HistoryEntry → Canvas
  | HistoryEntry.segmentation seg =>
    let store := dictInsert c.segmentations seg.id seg
    { c with
        segmentations := store,
        mask := setPixelsColor c.mask seg.color seg.pixels,
        undo_stack := c.undo_stack ++ [HistoryEntry.segmentation seg],
        pixel_labels := updatePixelLabels c.width c.height store }
  | HistoryEntry.drawing d =>
    { c with
        drawings := dictInsert c.drawings d.id d,
        mask := R.whiteLines d.pixels d.thickness c.mask,
        undo_stack := c.undo_stack ++ [HistoryEntry.drawing d],
        pixel_labels := updatePixelLabels c.width c.height c.segmentations }
  | HistoryEntry.merge old merged =>
    let store1 := old.foldl (fun st s => dictErase st s.id) c.segmentations
    let store := dictInsert store1 merged.id merged
    { c with
        segmentations := store,
        undo_stack := c.undo_stack ++ [HistoryEntry.merge old merged],
        pixel_labels := updatePixelLabels c.width c.height store }

/-- `redo_last_operation` itself: pop the newest redo entry and
re-apply it. -/
def redoOp (R : Renderers) (c : Canvas) : Canvas :=
  match c.redo_stack.getLast? with
  | none => c
  | some entry =>
    redoApply R { c with redo_stack := c.redo_stack.dropLast } entry

theorem undoOp_eq_apply {R : Renderers} {c : Canvas} {e : HistoryEntry}
    (hlast : c.undo_stack.getLast? = some e) :
    undoOp R c = undoApply R { c with undo_stack := c.undo_stack.dropLast } e := by
  unfold undoOp
  rw [hlast]

theorem redoOp_eq_apply {R : Renderers} {c : Canvas} {e : HistoryEntry}
    (hlast : c.redo_stack.getLast? = some e) :
    redoOp R c = redoApply R { c with redo_stack := c.redo_stack.dropLast } e := by
  unfold redoOp
  rw [hlast]

/-- C4: flood-fill start policy.  A fill is performed only when the
seed pixel currently holds the dark background value
(`is_pixel_black`): on any other seed, `flood_fill_at_position`
performs no fill, creates no region, and changes no state at all — the
call is a silent no-op. -/
theorem c4_flood_fill_start_policy (c : Canvas) (x y : Int) (fillColor : Color)
    (hnb : isPixelBlack c.mask x y = false) :
    floodFillAtPosition c x y fillColor = c := by
  unfold floodFillAtPosition
  rw [hnb]
  rfl

/-- A 1×1 canvas whose mask pixel is white (not background). -/
def whiteCanvas : Canvas :=
  { width := 1, height := 1, mask := [[(255, 255, 255)]], segmentations := [],
    next_seg_id := 1, drawings := [], next_draw_id := 1, undo_stack := [],
    redo_stack := [], selected := [], pixel_labels := [[0]] }

theorem c4_flood_fill_start_policy_witness :
    isPixelBlack whiteCanvas.mask 0 0 = false ∧
    floodFillAtPosition whiteCanvas 0 0 (40, 40, 40) = whiteCanvas :=
  ⟨by decide, c4_flood_fill_start_policy whiteCanvas 0 0 (40, 40, 40) (by decide)⟩

/-- Renderers that leave the mask unchanged (for concrete instances;
nothing in the claims depends on rendered line contents). -/
def rendId : Renderers :=
  { strokeLines := fun _ _ m => m, blackLines := fun _ _ m => m,
    whiteLines := fun _ _ m => m }

def segOne : Segmentation :=
  { id := 1, color := (100, 100, 100), pixels := [(0, 0)], border_pixels := [] }

/-- A canvas whose undo stack holds one `'segmentation'` entry but
whose region store is empty. -/
def emptyStoreCanvas : Canvas :=
  { width := 1, height := 1, mask := [[(0, 0, 0)]], segmentations := [],
    next_seg_id := 2, drawings := [], next_draw_id := 1,
    undo_stack := [HistoryEntry.segmentation segOne], redo_stack := [],
    selected := [], pixel_labels := [[0]] }

/-- C10 counterexample: undoing a `'segmentation'` entry over an empty
store pops the entry but does NOT move it to the redo stack — the entry
is dropped (the `redo_stack.append` sits inside `if self.segmentations:`),
contradicting the claim that the entry is moved to the redo stack. -/
theorem c10_counterexample :
    emptyStoreCanvas.segmentations = [] ∧
    emptyStoreCanvas.undo_stack = [HistoryEntry.segmentation segOne] ∧
    (undoOp rendId emptyStoreCanvas).undo_stack = [] ∧
    (undoOp rendId emptyStoreCanvas).segmentations = [] ∧
    ¬ (undoOp rendId emptyStoreCanvas).redo_stack =
        [HistoryEntry.segmentation segOne] := by
  decide

/-- C10 (amended): when undo pops a `'segmentation'` entry and the
store is non-empty, the region removed is the one with the greatest
live id (the maximum over current store keys), not necessarily the
region recorded in the entry, and the entry moves to the redo stack;
when the store is empty, the entry is popped and dropped — the store
and the redo stack are left unchanged. -/
theorem undoApply_seg_empty {R : Renderers} {c : Canvas} {seg : Segmentation}
    (he : c.segmentations.isEmpty = true) :
    undoApply R c (HistoryEntry.segmentation seg) =
      { c with pixel_labels := updatePixelLabels c.width c.height c.segmentations } := by
  simp only [undoApply]
  rw [if_pos he]

theorem undoApply_seg_nonempty {R : Renderers} {c : Canvas} {seg : Segmentation}
    (he : c.segmentations.isEmpty = false) :
    undoApply R c (HistoryEntry.segmentation seg) =
      { c with
          segmentations := dictErase c.segmentations (maxKey c.segmentations),
          mask := setPixelsColor c.mask (0, 0, 0)
            (((dictFind c.segmentations (maxKey c.segmentations)).map
              Segmentation.pixels).getD []),
          redo_stack := c.redo_stack ++ [HistoryEntry.segmentation seg],
          pixel_labels := updatePixelLabels c.width c.height
            (dictErase c.segmentations (maxKey c.segmentations)) } := by
  simp only [undoApply]
  rw [if_neg (by rw [he]; simp)]

theorem c10_undo_segmentation (R : Renderers) (c : Canvas) (seg : Segmentation)
    (hlast : c.undo_stack.getLast? = some (HistoryEntry.segmentation seg)) :
    (undoOp R c).undo_stack = c.undo_stack.dropLast ∧
    (c.segmentations = [] →
      (undoOp R c).segmentations = c.segmentations ∧
      (undoOp R c).redo_stack = c.redo_stack) ∧
    (c.segmentations ≠ [] →
      (undoOp R c).segmentations =
        dictErase c.segmentations (maxKey c.segmentations) ∧
      (undoOp R c).redo_stack =
        c.redo_stack ++ [HistoryEntry.segmentation seg]) := by
  rw [undoOp_eq_apply hlast]
  by_cases he : c.segmentations.isEmpty
  · rw [undoApply_seg_empty (c := { c with undo_stack := c.undo_stack.dropLast }) he]
    exact ⟨rfl, fun _ => ⟨rfl, rfl⟩,
      fun hne => absurd (List.isEmpty_iff.mp he) hne⟩
  · have he2 : c.segmentations.isEmpty = false := by
      cases hgv : c.segmentations.isEmpty
      · rfl
      · exact absurd hgv he
    rw [undoApply_seg_nonempty (c := { c with undo_stack := c.undo_stack.dropLast }) he2]
    exact ⟨rfl, fun hemp => absurd (List.isEmpty_iff.mpr hemp) he,
      fun _ => ⟨rfl, rfl⟩⟩

/-- A canvas with one stored region and its creation entry on the undo
stack (the region is also selected, which the C3 counterexample uses). -/
def oneSegCanvas : Canvas :=
  { width := 1, height := 1, mask := [[(100, 100, 100)]],
    segmentations := [(1, segOne)], next_seg_id := 2, drawings := [],
    next_draw_id := 1, undo_stack := [HistoryEntry.segmentation segOne],
    redo_stack := [], selected := [1], pixel_labels := [[1]] }

theorem c10_undo_segmentation_witness :
    oneSegCanvas.undo_stack.getLast? = some (HistoryEntry.segmentation segOne) ∧
    ((undoOp rendId oneSegCanvas).undo_stack = oneSegCanvas.undo_stack.dropLast ∧
     (oneSegCanvas.segmentations = [] →
       (undoOp rendId oneSegCanvas).segmentations = oneSegCanvas.segmentations ∧
       (undoOp rendId oneSegCanvas).redo_stack = oneSegCanvas.redo_stack) ∧
     (oneSegCanvas.segmentations ≠ [] →
       (undoOp rendId oneSegCanvas).segmentations =
         dictErase oneSegCanvas.segmentations (maxKey oneSegCanvas.segmentations) ∧
       (undoOp rendId oneSegCanvas).redo_stack =
         oneSegCanvas.redo_stack ++ [HistoryEntry.segmentation segOne])) :=
  ⟨by decide, c10_undo_segmentation rendId oneSegCanvas segOne (by decide)⟩

theorem dictFind_mem {α : Type} {d : Dict α} {k : Nat} {v : α}
    (h : dictFind d k = some v) : (k, v) ∈ d := by
  unfold dictFind at h
  cases hf : d.find? (fun e => e.1 == k) with
  | none =>
    rw [hf] at h
    simp at h
  | some e =>
    rw [hf] at h
    simp only [Option.map_some', Option.some.injEq] at h
    have hmem := List.mem_of_find?_eq_some hf
    have hkey := List.find?_some hf
    obtain ⟨k0, v0⟩ := e
    simp only [beq_iff_eq] at hkey
    show ((k, v) : Nat × α) ∈ d
    have he : ((k0, v0) : Nat × α) = (k, v) := by
      rw [hkey]
      rw [show v0 = v from h]
    rw [← he]
    exact hmem

theorem dictFind_append {α : Type} (d1 d2 : Dict α) (k : Nat) :
    dictFind (d1 ++ d2) k =
      if dictHas d1 k then dictFind d1 k else dictFind d2 k := by
  induction d1 with
  | nil =>
    have : dictHas ([] : Dict α) k = false := rfl
    rw [this]
    simp
  | cons e rest ih =>
    cases hek : (e.1 == k) with
    | true =>
      have h1 : dictHas (e :: rest) k = true := by
        unfold dictHas
        rw [List.any_cons, hek]
        rfl
      rw [h1, if_pos rfl]
      have h3 : ∀ (l : List (Nat × α)),
          (e :: l).find? (fun e2 => e2.1 == k) = some e := fun l =>
        List.find?_cons_of_pos (p := fun e2 : Nat × α => e2.1 == k) l hek
      unfold dictFind
      rw [List.cons_append, h3, h3]
    | false =>
      have h1 : dictHas (e :: rest) k = dictHas rest k := by
        unfold dictHas
        rw [List.any_cons, hek]
        simp
      have h2 : dictFind (e :: rest) k = dictFind rest k := by
        unfold dictFind
        rw [List.find?_cons_of_neg (p := fun e2 : Nat × α => e2.1 == k) _ (by simp [hek])]
      have h3 : dictFind ((e :: rest) ++ d2) k = dictFind (rest ++ d2) k := by
        unfold dictFind
        rw [List.cons_append,
          List.find?_cons_of_neg (p := fun e2 : Nat × α => e2.1 == k) _ (by simp [hek])]
      rw [h3, h1, h2]
      exact ih

theorem dictHas_false_of_lt {α : Type} {d : Dict α} {n : Nat}
    (h : ∀ e ∈ d, e.1 < n) : dictHas d n = false := by
  unfold dictHas
  rw [List.any_eq_false]
  intro e he
  simp only [beq_iff_eq]
  exact Nat.ne_of_lt (h e he)

theorem dictInsert_fresh {α : Type} {d : Dict α} {k : Nat}
    (h : dictHas d k = false) (v : α) : dictInsert d k v = d ++ [(k, v)] := by
  unfold dictInsert
  rw [h]
  rfl

theorem foldl_dictErase_eq_filter {α : Type} (ids : List Nat) (d : Dict α) :
    ids.foldl (fun st i => dictErase st i) d =
      d.filter (fun e => decide (e.1 ∉ ids)) := by
  induction ids generalizing d with
  | nil =>
    simp
  | cons i rest ih =>
    rw [List.foldl_cons, ih]
    unfold dictErase
    rw [List.filter_filter]
    apply List.filter_congr
    intro e _
    by_cases h1 : e.1 = i
    · simp [h1]
    · by_cases h2 : e.1 ∈ rest
      · simp [h1, h2]
      · simp [h1, h2]

theorem dictFind_filter_not_mem {α : Type} {d : Dict α} {ids : List Nat} {k : Nat}
    (hk : k ∈ ids) :
    dictFind (d.filter (fun e => decide (e.1 ∉ ids))) k = none := by
  unfold dictFind
  have hnone : (d.filter (fun e => decide (e.1 ∉ ids))).find?
      (fun e => e.1 == k) = none := by
    rw [List.find?_eq_none]
    intro e he
    have hmem : e.1 ∉ ids := by
      have := List.of_mem_filter he
      simpa using this
    simp only [beq_iff_eq]
    intro hc
    exact hmem (hc ▸ hk)
  rw [hnone]
  rfl

theorem dictHas_filter_fresh {α : Type} {d : Dict α} {n : Nat} {ids : List Nat}
    (h : ∀ e ∈ d, e.1 < n) :
    dictHas (d.filter (fun e => decide (e.1 ∉ ids))) n = false := by
  apply dictHas_false_of_lt
  intro e he
  exact h e (List.mem_of_mem_filter he)

theorem mergeSelected_store {c : Canvas} (col : Color)
    (hlen : ¬ c.selected.length < 2)
    (hpix : ¬ (((c.selected.filterMap (fun i => dictFind c.segmentations i)).map
      Segmentation.pixels).join).isEmpty = true)
    (hfresh : ∀ e ∈ c.segmentations, e.1 < c.next_seg_id) :
    (mergeSelected c col).segmentations =
      c.segmentations.filter (fun e => decide (e.1 ∉ c.selected)) ++
        [(c.next_seg_id,
          { id := c.next_seg_id, color := col,
            pixels := ((c.selected.filterMap
              (fun i => dictFind c.segmentations i)).map
              Segmentation.pixels).join,
            border_pixels := ((c.selected.filterMap
              (fun i => dictFind c.segmentations i)).map
              Segmentation.border_pixels).join })] ∧
    (mergeSelected c col).selected = [] ∧
    (mergeSelected c col).next_seg_id = c.next_seg_id + 1 := by
  simp only [mergeSelected]
  rw [if_neg hlen, if_neg hpix]
  rw [foldl_dictErase_eq_filter c.selected c.segmentations]
  rw [dictInsert_fresh (dictHas_filter_fresh hfresh) _]
  exact ⟨rfl, rfl, rfl⟩

theorem dictFind_single_eq {α : Type} (k : Nat) (v : α) :
    dictFind [(k, v)] k = some v := by
  unfold dictFind
  rw [List.find?_cons_of_pos (p := fun e2 : Nat × α => e2.1 == k) _ (by simp)]
  rfl

theorem dictFind_single_ne {α : Type} {k i : Nat} (h : i ≠ k) (v : α) :
    dictFind [(k, v)] i = none := by
  unfold dictFind
  rw [List.find?_cons_of_neg (p := fun e2 : Nat × α => e2.1 == i) _
    (by simp; exact fun hc => h hc.symm)]
  rfl

theorem dictHas_filter_not_mem {α : Type} {d : Dict α} {ids : List Nat} {k : Nat}
    (hk : k ∈ ids) :
    dictHas (d.filter (fun e => decide (e.1 ∉ ids))) k = false := by
  unfold dictHas
  rw [List.any_eq_false]
  intro e he
  have hmem : e.1 ∉ ids := by simpa using List.of_mem_filter he
  simp only [beq_iff_eq]
  intro hc
  exact hmem (hc ▸ hk)

/-- C8: merge arithmetic.  With exactly two regions selected, both
present in the store, merge stores exactly one new region under the
freshly allocated id `next_seg_id` (absent from the store before),
whose pixel list is the concatenation of the two (so its length is the
sum of theirs), and afterwards neither constituent id resolves in the
store; with fewer than two selected ids, merge is refused and the state
is unchanged. -/
theorem c8_merge_arithmetic (c : Canvas) (col : Color) (a b : Nat)
    (A B : Segmentation)
    (hsel : c.selected = [a, b])
    (hA : dictFind c.segmentations a = some A)
    (hB : dictFind c.segmentations b = some B)
    (hfresh : ∀ e ∈ c.segmentations, e.1 < c.next_seg_id)
    (hne : ¬ (A.pixels = [] ∧ B.pixels = [])) :
    (dictHas c.segmentations c.next_seg_id = false ∧
     (mergeSelected c col).segmentations =
       c.segmentations.filter (fun e => decide (e.1 ∉ c.selected)) ++
         [(c.next_seg_id,
           { id := c.next_seg_id, color := col, pixels := A.pixels ++ B.pixels,
             border_pixels := A.border_pixels ++ B.border_pixels })] ∧
     dictFind (mergeSelected c col).segmentations c.next_seg_id =
       some { id := c.next_seg_id, color := col, pixels := A.pixels ++ B.pixels,
              border_pixels := A.border_pixels ++ B.border_pixels } ∧
     (A.pixels ++ B.pixels).length = A.pixels.length + B.pixels.length ∧
     dictFind (mergeSelected c col).segmentations a = none ∧
     dictFind (mergeSelected c col).segmentations b = none) ∧
    (∀ c2 : Canvas, c2.selected.length < 2 → mergeSelected c2 col = c2) := by
  have holds : c.selected.filterMap (fun i => dictFind c.segmentations i) = [A, B] := by
    rw [hsel]
    simp [List.filterMap_cons, hA, hB]
  have hjp : ((c.selected.filterMap (fun i => dictFind c.segmentations i)).map
      Segmentation.pixels).join = A.pixels ++ B.pixels := by
    rw [holds]
    simp
  have hjb : ((c.selected.filterMap (fun i => dictFind c.segmentations i)).map
      Segmentation.border_pixels).join = A.border_pixels ++ B.border_pixels := by
    rw [holds]
    simp
  have hlen : ¬ c.selected.length < 2 := by
    rw [hsel]
    simp
  have hpix : ¬ (((c.selected.filterMap (fun i => dictFind c.segmentations i)).map
      Segmentation.pixels).join).isEmpty = true := by
    rw [hjp]
    intro hc
    rw [List.isEmpty_iff, List.append_eq_nil] at hc
    exact hne hc
  obtain ⟨hstore, hselnil, hnid⟩ := mergeSelected_store col hlen hpix hfresh
  rw [hjp, hjb] at hstore
  have ha_lt : a < c.next_seg_id := hfresh (a, A) (dictFind_mem hA)
  have hb_lt : b < c.next_seg_id := hfresh (b, B) (dictFind_mem hB)
  refine ⟨⟨dictHas_false_of_lt hfresh, hstore, ?_, List.length_append _ _, ?_, ?_⟩,
    fun c2 h2 => by unfold mergeSelected; rw [if_pos h2]⟩
  · rw [hstore, dictFind_append,
      if_neg (by rw [dictHas_filter_fresh hfresh]; simp)]
    exact dictFind_single_eq _ _
  · rw [hstore, dictFind_append,
      if_neg (by rw [dictHas_filter_not_mem (by rw [hsel]; simp)]; simp)]
    exact dictFind_single_ne (by omega) _
  · rw [hstore, dictFind_append,
      if_neg (by rw [dictHas_filter_not_mem (by rw [hsel]; simp)]; simp)]
    exact dictFind_single_ne (by omega) _

/-- C9: merge border policy.  The merged region stored under the fresh
id carries, as its `border_pixels`, exactly the concatenation of the
constituent regions' border lists as stored at merge time (selection
iteration order) — borders are not recomputed. -/
theorem c9_merge_border_policy (c : Canvas) (col : Color)
    (hlen : 2 ≤ c.selected.length)
    (hfresh : ∀ e ∈ c.segmentations, e.1 < c.next_seg_id)
    (hpix : ((c.selected.filterMap (fun i => dictFind c.segmentations i)).map
      Segmentation.pixels).join ≠ []) :
    dictFind (mergeSelected c col).segmentations c.next_seg_id =
      some { id := c.next_seg_id, color := col,
             pixels := ((c.selected.filterMap
               (fun i => dictFind c.segmentations i)).map Segmentation.pixels).join,
             border_pixels := ((c.selected.filterMap
               (fun i => dictFind c.segmentations i)).map
               Segmentation.border_pixels).join } := by
  have hlen2 : ¬ c.selected.length < 2 := by omega
  have hpix2 : ¬ (((c.selected.filterMap (fun i => dictFind c.segmentations i)).map
      Segmentation.pixels).join).isEmpty = true :=
    fun hc => hpix (List.isEmpty_iff.mp hc)
  obtain ⟨hstore, _, _⟩ := mergeSelected_store col hlen2 hpix2 hfresh
  rw [hstore, dictFind_append,
    if_neg (by rw [dictHas_filter_fresh hfresh]; simp)]
  exact dictFind_single_eq _ _

/-- C3 counterexample: undoing the creation of a selected region
removes the region from the store but leaves its id in the selection
set, so the selection is no longer a subset of the live ids — `undo`
does not remove deleted regions' ids from the selection. -/
theorem c3_counterexample :
    oneSegCanvas.selected = [1] ∧
    dictHas oneSegCanvas.segmentations 1 = true ∧
    (undoOp rendId oneSegCanvas).segmentations = [] ∧
    (undoOp rendId oneSegCanvas).selected = [1] ∧
    ¬ (∀ i ∈ (undoOp rendId oneSegCanvas).selected,
        dictHas (undoOp rendId oneSegCanvas).segmentations i = true) := by
  decide

/-- C3 (amended): the selection-subset invariant is maintained by
removal and merge — `remove_segmentation` deletes the removed region's
id from the selection and preserves subset-ness, and merge either
refuses (no change) or clears the selection entirely.  Undo and redo do
not touch the selection, so they can leave deleted ids selected. -/
theorem c3_selection_subset (c : Canvas) (seg : Segmentation) (col : Color)
    (hsub : ∀ i ∈ c.selected, dictHas c.segmentations i = true) :
    (∀ i ∈ (removeSegmentation c seg).selected,
      dictHas (removeSegmentation c seg).segmentations i = true) ∧
    seg.id ∉ (removeSegmentation c seg).selected ∧
    (∀ i ∈ (mergeSelected c col).selected,
      dictHas (mergeSelected c col).segmentations i = true) := by
  refine ⟨?_, ?_, ?_⟩
  · intro i hi
    have hi2 : i ∈ c.selected.filter (fun j => !(j == seg.id)) := hi
    have hfil := List.of_mem_filter hi2
    have hne : i ≠ seg.id := by simpa using hfil
    have hhas := hsub i (List.mem_of_mem_filter hi2)
    show dictHas (dictErase c.segmentations seg.id) i = true
    unfold dictHas dictErase at *
    rw [List.any_eq_true] at hhas
    obtain ⟨e, he, hei⟩ := hhas
    rw [List.any_eq_true]
    refine ⟨e, List.mem_filter.mpr ⟨he, ?_⟩, hei⟩
    have hek : e.1 = i := by simpa using hei
    simp [hek, hne]
  · intro hc
    have hc2 : seg.id ∈ c.selected.filter (fun j => !(j == seg.id)) := hc
    have := List.of_mem_filter hc2
    simp at this
  · unfold mergeSelected
    by_cases hlen : c.selected.length < 2
    · rw [if_pos hlen]
      exact hsub
    · rw [if_neg hlen]
      by_cases hemp : (((c.selected.filterMap
          (fun i => dictFind c.segmentations i)).map
          Segmentation.pixels).join).isEmpty = true
      · rw [if_pos hemp]
        exact hsub
      · rw [if_neg hemp]
        intro i hi
        exact absurd hi (List.not_mem_nil _)

def segTwo : Segmentation :=
  { id := 2, color := (50, 60, 70), pixels := [(1, 1)], border_pixels := [(1, 1)] }

/-- A 2×2 canvas with two one-pixel regions, both selected. -/
def twoSegCanvas : Canvas :=
  { width := 2, height := 2,
    mask := [[(100, 100, 100), (0, 0, 0)], [(0, 0, 0), (50, 60, 70)]],
    segmentations := [(1, segOne), (2, segTwo)], next_seg_id := 3,
    drawings := [], next_draw_id := 1, undo_stack := [], redo_stack := [],
    selected := [1, 2], pixel_labels := [[1, 0], [0, 2]] }

/-- The two-region store of `twoSegCanvas`, used on its own. -/
def demoStore : Dict Segmentation := [(1, segOne), (2, segTwo)]

/-- A 2×2 label grid matching `demoStore`'s first region. -/
def demoLabels : Grid Nat := [[1, 0], [0, 0]]

theorem demoStore_disjoint : DisjointPixels demoStore := by
  unfold DisjointPixels demoStore
  refine List.Pairwise.cons ?_ (List.Pairwise.cons
    (fun e he => absurd he (List.not_mem_nil _)) List.Pairwise.nil)
  intro e he p hp1 hp2
  rw [List.mem_singleton] at he
  subst he
  rw [show (1, segOne).2.pixels = [((0 : Int), (0 : Int))] from rfl,
    List.mem_singleton] at hp1
  subst hp1
  rw [show ((2 : Nat), segTwo).2.pixels = [((1 : Int), (1 : Int))] from rfl,
    List.mem_singleton] at hp2
  exact absurd hp2 (by decide)

theorem c1_grid_region_consistency_witness :
    (((demoStore.map Prod.fst).Nodup ∧
      (∀ e ∈ demoStore, 0 < e.1) ∧
      DisjointPixels demoStore ∧
      InB 2 2 0 0) ∧
     ((∀ e ∈ demoStore,
        (getPixelLabel (updatePixelLabels 2 2 demoStore) 0 0 = e.1 ↔
          (0, 0) ∈ e.2.pixels)) ∧
      (getPixelLabel (updatePixelLabels 2 2 demoStore) 0 0 = 0 ↔
        ∀ e ∈ demoStore, (0, 0) ∉ e.2.pixels))) :=
  ⟨⟨by decide, by decide, demoStore_disjoint, by decide⟩,
   c1_grid_region_consistency 2 2 demoStore (by decide) (by decide)
     demoStore_disjoint 0 0 (by decide)⟩

theorem c3_selection_subset_witness :
    (∀ i ∈ oneSegCanvas.selected, dictHas oneSegCanvas.segmentations i = true) ∧
    ((∀ i ∈ (removeSegmentation oneSegCanvas segOne).selected,
       dictHas (removeSegmentation oneSegCanvas segOne).segmentations i = true) ∧
     segOne.id ∉ (removeSegmentation oneSegCanvas segOne).selected ∧
     (∀ i ∈ (mergeSelected oneSegCanvas (7, 7, 7)).selected,
       dictHas (mergeSelected oneSegCanvas (7, 7, 7)).segmentations i = true)) :=
  ⟨by decide, c3_selection_subset oneSegCanvas segOne (7, 7, 7) (by decide)⟩

/-- A 2×2 image with a 3-pixel black component around the seed. -/
def tinyImage : Grid Color := [[(0, 0, 0), (1, 1, 1)], [(0, 0, 0), (0, 0, 0)]]

theorem c5_flood_fill_component_witness :
    (Rect (gridW tinyImage) (gridH tinyImage) tinyImage ∧
     InB (gridW tinyImage) (gridH tinyImage) 0 0) ∧
    ((0, 0) ∈ (floodFill tinyImage 0 0 (42, 42, 42)).1 ∧
     ∀ p : Pos, p ∈ (floodFill tinyImage 0 0 (42, 42, 42)).1 ↔
       SameValueComponent tinyImage (0, 0) p) :=
  ⟨⟨by decide, by decide⟩,
   c5_flood_fill_component tinyImage (42, 42, 42) 0 0 (by decide) (by decide)⟩

theorem c7_border_characterization_witness :
    (∀ q : Pos, InB 2 2 q.1 q.2 →
      (getPixelLabel demoLabels q.1 q.2 = segOne.id ↔ q ∈ segOne.pixels)) ∧
    (computeBorders 2 2 demoLabels segOne =
       segOne.pixels.filter (fun p => (nbrs p).any (fun q =>
         decide (InB 2 2 q.1 q.2) &&
           decide (getPixelLabel demoLabels q.1 q.2 ≠ segOne.id))) ∧
     (∀ p ∈ computeBorders 2 2 demoLabels segOne, p ∈ segOne.pixels) ∧
     ((∀ q : Pos, InB 2 2 q.1 q.2 → q ∈ segOne.pixels) →
       computeBorders 2 2 demoLabels segOne = [])) := by
  have hcons : ∀ q : Pos, InB 2 2 q.1 q.2 →
      (getPixelLabel demoLabels q.1 q.2 = segOne.id ↔ q ∈ segOne.pixels) := by
    intro q hq
    obtain ⟨a, b⟩ := q
    obtain ⟨h1, h2, h3, h4⟩ := hq
    have ha : a = 0 ∨ a = 1 := by omega
    have hb : b = 0 ∨ b = 1 := by omega
    rcases ha with ha | ha <;> rcases hb with hb | hb <;>
      rw [ha, hb] <;> decide
  exact ⟨hcons, c7_border_characterization 2 2 demoLabels segOne hcons⟩

theorem c8_merge_arithmetic_witness :
    (twoSegCanvas.selected = [1, 2] ∧
     dictFind twoSegCanvas.segmentations 1 = some segOne ∧
     dictFind twoSegCanvas.segmentations 2 = some segTwo ∧
     (∀ e ∈ twoSegCanvas.segmentations, e.1 < twoSegCanvas.next_seg_id) ∧
     ¬ (segOne.pixels = [] ∧ segTwo.pixels = [])) ∧
    ((dictHas twoSegCanvas.segmentations twoSegCanvas.next_seg_id = false ∧
      (mergeSelected twoSegCanvas (9, 9, 9)).segmentations =
        twoSegCanvas.segmentations.filter
          (fun e => decide (e.1 ∉ twoSegCanvas.selected)) ++
          [(twoSegCanvas.next_seg_id,
            { id := twoSegCanvas.next_seg_id, color := (9, 9, 9),
              pixels := segOne.pixels ++ segTwo.pixels,
              border_pixels := segOne.border_pixels ++ segTwo.border_pixels })] ∧
      dictFind (mergeSelected twoSegCanvas (9, 9, 9)).segmentations
          twoSegCanvas.next_seg_id =
        some { id := twoSegCanvas.next_seg_id, color := (9, 9, 9),
               pixels := segOne.pixels ++ segTwo.pixels,
               border_pixels := segOne.border_pixels ++ segTwo.border_pixels } ∧
      (segOne.pixels ++ segTwo.pixels).length =
        segOne.pixels.length + segTwo.pixels.length ∧
      dictFind (mergeSelected twoSegCanvas (9, 9, 9)).segmentations 1 = none ∧
      dictFind (mergeSelected twoSegCanvas (9, 9, 9)).segmentations 2 = none) ∧
     (∀ c2 : Canvas, c2.selected.length < 2 → mergeSelected c2 (9, 9, 9) = c2)) :=
  ⟨⟨by decide, by decide, by decide, by decide, by decide⟩,
   c8_merge_arithmetic twoSegCanvas (9, 9, 9) 1 2 segOne segTwo
     (by decide) (by decide) (by decide) (by decide) (by decide)⟩

theorem c9_merge_border_policy_witness :
    (2 ≤ twoSegCanvas.selected.length ∧
     (∀ e ∈ twoSegCanvas.segmentations, e.1 < twoSegCanvas.next_seg_id) ∧
     ((twoSegCanvas.selected.filterMap
       (fun i => dictFind twoSegCanvas.segmentations i)).map
       Segmentation.pixels).join ≠ []) ∧
    dictFind (mergeSelected twoSegCanvas (8, 8, 8)).segmentations
        twoSegCanvas.next_seg_id =
      some { id := twoSegCanvas.next_seg_id, color := (8, 8, 8),
             pixels := ((twoSegCanvas.selected.filterMap
               (fun i => dictFind twoSegCanvas.segmentations i)).map
               Segmentation.pixels).join,
             border_pixels := ((twoSegCanvas.selected.filterMap
               (fun i => dictFind twoSegCanvas.segmentations i)).map
               Segmentation.border_pixels).join } :=
  ⟨⟨by decide, by decide, by decide⟩,
   c9_merge_border_policy twoSegCanvas (8, 8, 8) (by decide) (by decide) (by decide)⟩

theorem append_single_isEmpty {α : Type} (d : List α) (e : α) :
    (d ++ [e]).isEmpty = false := by
  cases d <;> rfl

theorem foldl_max_le {m : Nat} :
    ∀ (l : List Nat), (∀ k ∈ l, k ≤ m) → ∀ a, a ≤ m → l.foldl max a ≤ m := by
  intro l
  induction l with
  | nil =>
    intro _ a ha
    exact ha
  | cons k rest ih =>
    intro h a ha
    rw [List.foldl_cons]
    apply ih (fun k2 hk2 => h k2 (List.mem_cons_of_mem _ hk2))
    exact Nat.max_le.mpr ⟨ha, h k (List.mem_cons_self _ _)⟩

theorem maxKey_append_fresh {α : Type} {d : Dict α} {n : Nat} {v : α}
    (h : ∀ e ∈ d, e.1 < n) : maxKey (d ++ [(n, v)]) = n := by
  unfold maxKey
  rw [List.map_append, List.foldl_append]
  have h1 : (d.map Prod.fst).foldl max 0 ≤ n := by
    apply foldl_max_le
    · intro k hk
      obtain ⟨e, he, hek⟩ := List.mem_map.mp hk
      rw [← hek]
      exact Nat.le_of_lt (h e he)
    · exact Nat.zero_le n
  show max ((d.map Prod.fst).foldl max 0) n = n
  exact Nat.max_eq_right h1

theorem dictErase_append_fresh {α : Type} {d : Dict α} {n : Nat} {v : α}
    (h : ∀ e ∈ d, e.1 < n) : dictErase (d ++ [(n, v)]) n = d := by
  unfold dictErase
  rw [List.filter_append]
  have h1 : d.filter (fun e => !(e.1 == n)) = d :=
    List.filter_eq_self.mpr (fun e he => by
      simp only [Bool.not_eq_eq_eq_not, Bool.not_true, beq_eq_false_iff_ne]
      exact Nat.ne_of_lt (h e he))
  rw [h1]
  simp

theorem dictFind_of_mem_nodup {α : Type} {d : Dict α} {e : Nat × α}
    (hnd : (d.map Prod.fst).Nodup) (hmem : e ∈ d) :
    dictFind d e.1 = some e.2 := by
  induction d with
  | nil => exact absurd hmem (List.not_mem_nil _)
  | cons a rest ih =>
    rw [List.map_cons, List.nodup_cons] at hnd
    rcases List.mem_cons.mp hmem with he | he
    · subst he
      unfold dictFind
      rw [List.find?_cons_of_pos (p := fun e2 : Nat × α => e2.1 == e.1) _ (by simp)]
      rfl
    · have hne : (a.1 == e.1) = false := by
        simp only [beq_eq_false_iff_ne]
        intro hc
        exact hnd.1 (hc ▸ List.mem_map_of_mem Prod.fst he)
      unfold dictFind
      rw [List.find?_cons_of_neg (p := fun e2 : Nat × α => e2.1 == e.1) _
        (by simp [hne])]
      exact ih hnd.2 he

theorem foldl_insertSeg_append :
    ∀ (ss : List Segmentation) (d : Dict Segmentation),
      (∀ s ∈ ss, dictHas d s.id = false) → (ss.map Segmentation.id).Nodup →
      ss.foldl (fun st s => dictInsert st s.id s) d =
        d ++ ss.map (fun s => (s.id, s)) := by
  intro ss
  induction ss with
  | nil =>
    intro d _ _
    simp
  | cons s rest ih =>
    intro d hf hnd
    rw [List.map_cons, List.nodup_cons] at hnd
    rw [List.foldl_cons, dictInsert_fresh (hf s (List.mem_cons_self _ _)) s]
    rw [ih (d ++ [(s.id, s)]) ?_ hnd.2]
    · rw [List.map_cons, List.append_assoc]
      rfl
    · intro s2 hs2
      unfold dictHas
      rw [List.any_append]
      have h1 : dictHas d s2.id = false := hf s2 (List.mem_cons_of_mem _ hs2)
      unfold dictHas at h1
      rw [h1]
      simp only [Bool.false_or, List.any_cons, List.any_nil, Bool.or_false]
      simp only [beq_eq_false_iff_ne]
      exact fun hc => hnd.1 (hc ▸ List.mem_map_of_mem Segmentation.id hs2)

theorem filterMap_find_ids (store : Dict Segmentation)
    (hwf : ∀ e ∈ store, e.2.id = e.1) :
    ∀ (ids : List Nat),
      ((ids.filterMap (fun i => dictFind store i)).map Segmentation.id) =
        ids.filter (fun i => (dictFind store i).isSome) := by
  intro ids
  induction ids with
  | nil => rfl
  | cons i rest ih =>
    rw [List.filterMap_cons, List.filter_cons]
    cases hf : dictFind store i with
    | none =>
      rw [if_neg (by simp)]
      exact ih
    | some s =>
      have hs : s.id = i := hwf (i, s) (dictFind_mem hf)
      rw [if_pos (by rfl)]
      rw [List.map_cons, ih, hs]

theorem dictFind_filter_not_sel_eq {α : Type} {d : Dict α} {ids : List Nat} {k : Nat}
    (hk : k ∉ ids) :
    dictFind (d.filter (fun e => decide (e.1 ∉ ids))) k = dictFind d k := by
  induction d with
  | nil => rfl
  | cons e rest ih =>
    rw [List.filter_cons]
    by_cases he : e.1 ∈ ids
    · rw [if_neg (by simp [he])]
      have hek : (e.1 == k) = false := by
        simp only [beq_eq_false_iff_ne]
        intro hc
        exact hk (hc ▸ he)
      have h2 : dictFind (e :: rest) k = dictFind rest k := by
        unfold dictFind
        rw [List.find?_cons_of_neg (p := fun e2 : Nat × α => e2.1 == k) _
          (by simp [hek])]
      rw [h2]
      exact ih
    · rw [if_pos (by simp [he])]
      cases hek : (e.1 == k) with
      | true =>
        unfold dictFind
        rw [List.find?_cons_of_pos (p := fun e2 : Nat × α => e2.1 == k) _ hek,
          List.find?_cons_of_pos (p := fun e2 : Nat × α => e2.1 == k) _ hek]
      | false =>
        have h2 : dictFind (e :: rest) k = dictFind rest k := by
          unfold dictFind
          rw [List.find?_cons_of_neg (p := fun e2 : Nat × α => e2.1 == k) _
            (by simp [hek])]
        have h3 : dictFind (e :: rest.filter (fun e2 => decide (e2.1 ∉ ids))) k =
            dictFind (rest.filter (fun e2 => decide (e2.1 ∉ ids))) k := by
          unfold dictFind
          rw [List.find?_cons_of_neg (p := fun e2 : Nat × α => e2.1 == k) _
            (by simp [hek])]
        rw [h3, h2]
        exact ih

theorem updatePixelLabels_rect (w h : Nat) (store : Dict Segmentation) :
    Rect w h (updatePixelLabels w h store) := by
  unfold updatePixelLabels
  have hgen : ∀ (st : Dict Segmentation) (g : Grid Nat), Rect w h g →
      Rect w h (st.foldl (fun acc e => writePixels acc e.1 e.2.pixels) g) := by
    intro st
    induction st with
    | nil =>
      intro g hg
      exact hg
    | cons e rest ih =>
      intro g hg
      exact ih _ (writePixels_rect hg _ _)
  exact hgen store _ (rect_mkGrid 0 w h)

theorem entry_mem_iff_of_find {d1 d2 : Dict Segmentation}
    (hfind : ∀ k, dictFind d1 k = dictFind d2 k)
    (hnd1 : (d1.map Prod.fst).Nodup) (hnd2 : (d2.map Prod.fst).Nodup)
    (e : Nat × Segmentation) : e ∈ d1 ↔ e ∈ d2 := by
  constructor
  · intro h1
    have hfd := dictFind_of_mem_nodup hnd1 h1
    rw [hfind e.1] at hfd
    have h2 := dictFind_mem hfd
    simpa using h2
  · intro h2
    have hfd := dictFind_of_mem_nodup hnd2 h2
    rw [← hfind e.1] at hfd
    have h1 := dictFind_mem hfd
    simpa using h1

theorem rebuild_pointwise_eq {w h : Nat} {d1 d2 : Dict Segmentation}
    (hfind : ∀ k, dictFind d1 k = dictFind d2 k)
    (hnd1 : (d1.map Prod.fst).Nodup) (hnd2 : (d2.map Prod.fst).Nodup)
    (hdisj2 : DisjointPixels d2) (x y : Int) :
    getPixelLabel (updatePixelLabels w h d1) x y =
      getPixelLabel (updatePixelLabels w h d2) x y := by
  have hmem : ∀ e : Nat × Segmentation, e ∈ d1 ↔ e ∈ d2 :=
    entry_mem_iff_of_find hfind hnd1 hnd2
  have hsymm : Symmetric (fun a b : Nat × Segmentation =>
      ∀ p : Pos, p ∈ a.2.pixels → p ∉ b.2.pixels) :=
    fun a b hab p hpb hpa => hab p hpa hpb
  have hdisj1 : DisjointPixels d1 := by
    unfold DisjointPixels
    rw [List.pairwise_iff_get]
    intro i j hij
    have hkeyne : (d1.get i).1 ≠ (d1.get j).1 := by
      intro hc
      have hinj : d1.get i = d1.get j :=
        dict_key_inj hnd1 (List.get_mem d1 _ _) (List.get_mem d1 _ _) hc
      have hij2 : i = j := (List.Nodup.get_inj_iff (hnd1.of_map _)).mp hinj
      rw [hij2] at hij
      exact absurd hij (lt_irrefl _)
    have h1 : d1.get i ∈ d2 := (hmem _).mp (List.get_mem d1 _ _)
    have h2 : d1.get j ∈ d2 := (hmem _).mp (List.get_mem d1 _ _)
    have hne : d1.get i ≠ d1.get j := fun hc => hkeyne (by rw [hc])
    exact hdisj2.forall hsymm h1 h2 hne
  by_cases hin : InB w h x y
  · rw [getPixelLabel_updatePixelLabels hdisj1 hin,
      getPixelLabel_updatePixelLabels hdisj2 hin]
    cases hf2 : d2.find? (fun e => decide ((x, y) ∈ e.2.pixels)) with
    | some e =>
      have hmem2 := List.mem_of_find?_eq_some hf2
      have hown2 : (x, y) ∈ e.2.pixels := by
        have := List.find?_some hf2
        simpa using this
      have hmem1 : e ∈ d1 := (hmem e).mpr hmem2
      rw [find_owner_eq hdisj1 hmem1 hown2]
    | none =>
      have hf1 : d1.find? (fun e => decide ((x, y) ∈ e.2.pixels)) = none := by
        rw [List.find?_eq_none]
        intro e he
        simp only [decide_eq_true_eq]
        intro hc
        have hmem2 : e ∈ d2 := (hmem e).mp he
        have hsome := find_owner_eq hdisj2 hmem2 hc
        rw [hf2] at hsome
        exact absurd hsome (by simp)
      rw [hf1]
  · unfold getPixelLabel
    rw [gridGet_oob (updatePixelLabels_rect w h d1) 0 hin,
      gridGet_oob (updatePixelLabels_rect w h d2) 0 hin]

/-- "Contents exactly, id-for-id and pixel-for-pixel": the region store
resolves every id identically and the pixel-label grid agrees at every
coordinate. -/
def SameContents (c1 c2 : Canvas) : Prop :=
  (∀ k : Nat, dictFind c1.segmentations k = dictFind c2.segmentations k) ∧
  (∀ x y : Int, getPixelLabel c1.pixel_labels x y = getPixelLabel c2.pixel_labels x y)

/-- The segmentation a successful fill creates: fresh id, fill color,
filled pixels, borders computed against the pre-fill label grid. -/
def fillSeg (c : Canvas) (x y : Int) (col : Color) : Segmentation :=
  { id := c.next_seg_id, color := col,
    pixels := (floodFill c.mask x y col).1,
    border_pixels := computeBorders c.width c.height c.pixel_labels
      { id := c.next_seg_id, color := col,
        pixels := (floodFill c.mask x y col).1, border_pixels := [] } }

theorem floodFillAtPosition_fill {c : Canvas} {x y : Int} {col : Color}
    (hb : isPixelBlack c.mask x y = true)
    (hfp : (floodFill c.mask x y col).1.isEmpty = false) :
    floodFillAtPosition c x y col =
      { c with
          mask := (floodFill c.mask x y col).2,
          segmentations := dictInsert c.segmentations c.next_seg_id
            (fillSeg c x y col),
          next_seg_id := c.next_seg_id + 1,
          undo_stack := c.undo_stack ++
            [HistoryEntry.segmentation (fillSeg c x y col)],
          redo_stack := [],
          pixel_labels := updatePixelLabels c.width c.height
            (dictInsert c.segmentations c.next_seg_id (fillSeg c x y col)) } := by
  simp only [floodFillAtPosition]
  rw [if_pos hb, if_neg (by rw [hfp]; simp)]
  rfl

theorem applyStroke_eval (R : Renderers) (c : Canvas) {pts : List Pos} (th : Nat)
    (hne : pts.isEmpty = false) :
    applyStroke R c pts th =
      { c with
          next_draw_id := c.next_draw_id + 1,
          mask := R.strokeLines pts th c.mask,
          drawings := dictInsert c.drawings c.next_draw_id
            { id := c.next_draw_id, pixels := pts, thickness := th },
          undo_stack := c.undo_stack ++
            [HistoryEntry.drawing
              { id := c.next_draw_id, pixels := pts, thickness := th }],
          redo_stack := [] } := by
  simp only [applyStroke]
  rw [if_neg (by rw [hne]; simp)]

/-- The regions a merge consumes, in selection iteration order. -/
def mergeOld (c : Canvas) : List Segmentation :=
  c.selected.filterMap (fun i => dictFind c.segmentations i)

/-- The region a merge creates. -/
def mergedSeg (c : Canvas) (col : Color) : Segmentation :=
  { id := c.next_seg_id, color := col,
    pixels := ((mergeOld c).map Segmentation.pixels).join,
    border_pixels := ((mergeOld c).map Segmentation.border_pixels).join }

theorem mergeSelected_eval {c : Canvas} (col : Color)
    (hlen : ¬ c.selected.length < 2)
    (hpix : ¬ (((c.selected.filterMap (fun i => dictFind c.segmentations i)).map
      Segmentation.pixels).join).isEmpty = true) :
    mergeSelected c col =
      { c with
          segmentations := dictInsert
            (c.selected.foldl (fun st i => dictErase st i) c.segmentations)
            c.next_seg_id (mergedSeg c col),
          next_seg_id := c.next_seg_id + 1,
          selected := [],
          undo_stack := c.undo_stack ++
            [HistoryEntry.merge (mergeOld c) (mergedSeg c col)],
          redo_stack := [],
          pixel_labels := updatePixelLabels c.width c.height
            (dictInsert
              (c.selected.foldl (fun st i => dictErase st i) c.segmentations)
              c.next_seg_id (mergedSeg c col)),
          mask := setPixelsColor c.mask col
            ((c.selected.filterMap (fun i => dictFind c.segmentations i)).map
              Segmentation.pixels).join } := by
  simp only [mergeSelected]
  rw [if_neg hlen, if_neg hpix]
  rfl

theorem undoApply_draw_nonempty {R : Renderers} {c : Canvas} {d : Drawing}
    (he : c.drawings.isEmpty = false) :
    undoApply R c (HistoryEntry.drawing d) =
      { c with
          drawings := dictErase c.drawings (maxKey c.drawings),
          mask := ((dictFind c.drawings (maxKey c.drawings)).map
            (fun d2 => R.blackLines d2.pixels d2.thickness c.mask)).getD c.mask,
          redo_stack := c.redo_stack ++ [HistoryEntry.drawing d],
          pixel_labels := updatePixelLabels c.width c.height c.segmentations } := by
  simp only [undoApply]
  rw [if_neg (by rw [he]; simp)]

theorem undoApply_merge_eval (R : Renderers) (c : Canvas)
    (old : List Segmentation) (merged : Segmentation) :
    undoApply R c (HistoryEntry.merge old merged) =
      { c with
          segmentations := old.foldl (fun st s => dictInsert st s.id s)
            (dictErase c.segmentations merged.id),
          redo_stack := c.redo_stack ++ [HistoryEntry.merge old merged],
          pixel_labels := updatePixelLabels c.width c.height
            (old.foldl (fun st s => dictInsert st s.id s)
              (dictErase c.segmentations merged.id)) } := rfl

theorem redoApply_seg_eval (R : Renderers) (c : Canvas) (seg : Segmentation) :
    redoApply R c (HistoryEntry.segmentation seg) =
      { c with
          segmentations := dictInsert c.segmentations seg.id seg,
          mask := setPixelsColor c.mask seg.color seg.pixels,
          undo_stack := c.undo_stack ++ [HistoryEntry.segmentation seg],
          pixel_labels := updatePixelLabels c.width c.height
            (dictInsert c.segmentations seg.id seg) } := rfl

theorem redoApply_draw_eval (R : Renderers) (c : Canvas) (d : Drawing) :
    redoApply R c (HistoryEntry.drawing d) =
      { c with
          drawings := dictInsert c.drawings d.id d,
          mask := R.whiteLines d.pixels d.thickness c.mask,
          undo_stack := c.undo_stack ++ [HistoryEntry.drawing d],
          pixel_labels := updatePixelLabels c.width c.height c.segmentations } := rfl

theorem redoApply_merge_eval (R : Renderers) (c : Canvas)
    (old : List Segmentation) (merged : Segmentation) :
    redoApply R c (HistoryEntry.merge old merged) =
      { c with
          segmentations := dictInsert
            (old.foldl (fun st s => dictErase st s.id) c.segmentations)
            merged.id merged,
          undo_stack := c.undo_stack ++ [HistoryEntry.merge old merged],
          pixel_labels := updatePixelLabels c.width c.height
            (dictInsert
              (old.foldl (fun st s => dictErase st s.id) c.segmentations)
              merged.id merged) } := rfl

theorem undoOp_proj_seg {R : Renderers} {c : Canvas} {seg : Segmentation}
    (hlast : c.undo_stack.getLast? = some (HistoryEntry.segmentation seg))
    (hne : c.segmentations.isEmpty = false) :
    (undoOp R c).segmentations = dictErase c.segmentations (maxKey c.segmentations) ∧
    (undoOp R c).pixel_labels = updatePixelLabels c.width c.height
      (dictErase c.segmentations (maxKey c.segmentations)) ∧
    (undoOp R c).redo_stack = c.redo_stack ++ [HistoryEntry.segmentation seg] ∧
    (undoOp R c).width = c.width ∧ (undoOp R c).height = c.height := by
  rw [undoOp_eq_apply hlast,
    undoApply_seg_nonempty (c := { c with undo_stack := c.undo_stack.dropLast }) hne]
  exact ⟨rfl, rfl, rfl, rfl, rfl⟩

theorem undoOp_proj_draw {R : Renderers} {c : Canvas} {d : Drawing}
    (hlast : c.undo_stack.getLast? = some (HistoryEntry.drawing d))
    (hne : c.drawings.isEmpty = false) :
    (undoOp R c).segmentations = c.segmentations ∧
    (undoOp R c).pixel_labels = updatePixelLabels c.width c.height c.segmentations ∧
    (undoOp R c).redo_stack = c.redo_stack ++ [HistoryEntry.drawing d] ∧
    (undoOp R c).width = c.width ∧ (undoOp R c).height = c.height := by
  rw [undoOp_eq_apply hlast,
    undoApply_draw_nonempty (c := { c with undo_stack := c.undo_stack.dropLast }) hne]
  exact ⟨rfl, rfl, rfl, rfl, rfl⟩

theorem undoOp_proj_merge {R : Renderers} {c : Canvas} {old : List Segmentation}
    {merged : Segmentation}
    (hlast : c.undo_stack.getLast? = some (HistoryEntry.merge old merged)) :
    (undoOp R c).segmentations = old.foldl (fun st s => dictInsert st s.id s)
      (dictErase c.segmentations merged.id) ∧
    (undoOp R c).pixel_labels = updatePixelLabels c.width c.height
      (old.foldl (fun st s => dictInsert st s.id s)
        (dictErase c.segmentations merged.id)) ∧
    (undoOp R c).redo_stack = c.redo_stack ++ [HistoryEntry.merge old merged] ∧
    (undoOp R c).width = c.width ∧ (undoOp R c).height = c.height := by
  rw [undoOp_eq_apply hlast, undoApply_merge_eval]
  exact ⟨rfl, rfl, rfl, rfl, rfl⟩

theorem redoOp_proj_seg {R : Renderers} {c : Canvas} {seg : Segmentation}
    (hlast : c.redo_stack.getLast? = some (HistoryEntry.segmentation seg)) :
    (redoOp R c).segmentations = dictInsert c.segmentations seg.id seg ∧
    (redoOp R c).pixel_labels = updatePixelLabels c.width c.height
      (dictInsert c.segmentations seg.id seg) := by
  rw [redoOp_eq_apply hlast, redoApply_seg_eval]
  exact ⟨rfl, rfl⟩

theorem redoOp_proj_draw {R : Renderers} {c : Canvas} {d : Drawing}
    (hlast : c.redo_stack.getLast? = some (HistoryEntry.drawing d)) :
    (redoOp R c).segmentations = c.segmentations ∧
    (redoOp R c).pixel_labels =
      updatePixelLabels c.width c.height c.segmentations := by
  rw [redoOp_eq_apply hlast, redoApply_draw_eval]
  exact ⟨rfl, rfl⟩

theorem redoOp_proj_merge {R : Renderers} {c : Canvas} {old : List Segmentation}
    {merged : Segmentation}
    (hlast : c.redo_stack.getLast? = some (HistoryEntry.merge old merged)) :
    (redoOp R c).segmentations = dictInsert
      (old.foldl (fun st s => dictErase st s.id) c.segmentations)
      merged.id merged ∧
    (redoOp R c).pixel_labels = updatePixelLabels c.width c.height
      (dictInsert (old.foldl (fun st s => dictErase st s.id) c.segmentations)
        merged.id merged) := by
  rw [redoOp_eq_apply hlast, redoApply_merge_eval]
  exact ⟨rfl, rfl⟩

theorem undo_redo_fill {R : Renderers} {c : Canvas} (x y : Int) (col : Color)
    (hfresh : ∀ e ∈ c.segmentations, e.1 < c.next_seg_id)
    (hlab : c.pixel_labels = updatePixelLabels c.width c.height c.segmentations)
    (hb : isPixelBlack c.mask x y = true)
    (hfp : (floodFill c.mask x y col).1 ≠ []) :
    SameContents (undoOp R (floodFillAtPosition c x y col)) c ∧
    SameContents (redoOp R (undoOp R (floodFillAtPosition c x y col)))
      (floodFillAtPosition c x y col) := by
  have hfp2 : (floodFill c.mask x y col).1.isEmpty = false := by
    cases hh : (floodFill c.mask x y col).1.isEmpty
    · rfl
    · exact absurd (List.isEmpty_iff.mp hh) hfp
  have heval := floodFillAtPosition_fill hb hfp2
  have hins : dictInsert c.segmentations c.next_seg_id (fillSeg c x y col) =
      c.segmentations ++ [(c.next_seg_id, fillSeg c x y col)] :=
    dictInsert_fresh (dictHas_false_of_lt hfresh) _
  have hc'seg : (floodFillAtPosition c x y col).segmentations =
      c.segmentations ++ [(c.next_seg_id, fillSeg c x y col)] := by
    rw [heval, hins]
  have hc'u : (floodFillAtPosition c x y col).undo_stack =
      c.undo_stack ++ [HistoryEntry.segmentation (fillSeg c x y col)] := by
    rw [heval]
  have hc'r : (floodFillAtPosition c x y col).redo_stack = [] := by
    rw [heval]
  have hc'w : (floodFillAtPosition c x y col).width = c.width := by
    rw [heval]
  have hc'h : (floodFillAtPosition c x y col).height = c.height := by
    rw [heval]
  have hc'lab : (floodFillAtPosition c x y col).pixel_labels =
      updatePixelLabels c.width c.height
        (c.segmentations ++ [(c.next_seg_id, fillSeg c x y col)]) := by
    rw [heval, hins]
  have hlast : (floodFillAtPosition c x y col).undo_stack.getLast? =
      some (HistoryEntry.segmentation (fillSeg c x y col)) := by
    rw [hc'u]
    exact List.getLast?_concat _
  have hne : (floodFillAtPosition c x y col).segmentations.isEmpty = false := by
    rw [hc'seg]
    exact append_single_isEmpty _ _
  obtain ⟨hu_seg, hu_lab, hu_redo, hu_w, hu_h⟩ := undoOp_proj_seg hlast hne
  rw [hc'seg, maxKey_append_fresh hfresh, dictErase_append_fresh hfresh] at hu_seg
  rw [hc'seg, maxKey_append_fresh hfresh, dictErase_append_fresh hfresh,
    hc'w, hc'h] at hu_lab
  constructor
  · constructor
    · intro k
      rw [hu_seg]
    · intro a b
      rw [hu_lab, hlab]
  · have hrlast : (undoOp R (floodFillAtPosition c x y col)).redo_stack.getLast? =
        some (HistoryEntry.segmentation (fillSeg c x y col)) := by
      rw [hu_redo, hc'r]
      rfl
    obtain ⟨hr_seg, hr_lab⟩ := redoOp_proj_seg hrlast
    rw [hu_seg] at hr_seg
    rw [hu_seg, hu_w, hu_h, hc'w, hc'h] at hr_lab
    have hins2 : dictInsert c.segmentations (fillSeg c x y col).id
        (fillSeg c x y col) =
        c.segmentations ++ [(c.next_seg_id, fillSeg c x y col)] := hins
    rw [hins2] at hr_seg hr_lab
    constructor
    · intro k
      rw [hr_seg, hc'seg]
    · intro a b
      rw [hr_lab, hc'lab]

theorem undo_redo_stroke {R : Renderers} {c : Canvas} (pts : List Pos) (th : Nat)
    (hdfresh : ∀ e ∈ c.drawings, e.1 < c.next_draw_id)
    (hlab : c.pixel_labels = updatePixelLabels c.width c.height c.segmentations)
    (hne : pts ≠ []) :
    SameContents (undoOp R (applyStroke R c pts th)) c ∧
    SameContents (redoOp R (undoOp R (applyStroke R c pts th)))
      (applyStroke R c pts th) := by
  have hne2 : pts.isEmpty = false := by
    cases hh : pts.isEmpty
    · rfl
    · exact absurd (List.isEmpty_iff.mp hh) hne
  have heval := applyStroke_eval R c th hne2
  have hdins : dictInsert c.drawings c.next_draw_id
      { id := c.next_draw_id, pixels := pts, thickness := th } =
      c.drawings ++ [(c.next_draw_id,
        { id := c.next_draw_id, pixels := pts, thickness := th })] :=
    dictInsert_fresh (dictHas_false_of_lt hdfresh) _
  have hc'dr : (applyStroke R c pts th).drawings =
      c.drawings ++ [(c.next_draw_id,
        { id := c.next_draw_id, pixels := pts, thickness := th })] := by
    rw [heval, hdins]
  have hc'seg : (applyStroke R c pts th).segmentations = c.segmentations := by
    rw [heval]
  have hc'u : (applyStroke R c pts th).undo_stack =
      c.undo_stack ++ [HistoryEntry.drawing
        { id := c.next_draw_id, pixels := pts, thickness := th }] := by
    rw [heval]
  have hc'r : (applyStroke R c pts th).redo_stack = [] := by
    rw [heval]
  have hc'w : (applyStroke R c pts th).width = c.width := by
    rw [heval]
  have hc'h : (applyStroke R c pts th).height = c.height := by
    rw [heval]
  have hc'lab : (applyStroke R c pts th).pixel_labels = c.pixel_labels := by
    rw [heval]
  have hlast : (applyStroke R c pts th).undo_stack.getLast? =
      some (HistoryEntry.drawing
        { id := c.next_draw_id, pixels := pts, thickness := th }) := by
    rw [hc'u]
    exact List.getLast?_concat _
  have hned : (applyStroke R c pts th).drawings.isEmpty = false := by
    rw [hc'dr]
    exact append_single_isEmpty _ _
  obtain ⟨hu_seg, hu_lab, hu_redo, hu_w, hu_h⟩ := undoOp_proj_draw hlast hned
  rw [hc'seg] at hu_seg
  rw [hc'seg, hc'w, hc'h] at hu_lab
  constructor
  · constructor
    · intro k
      rw [hu_seg]
    · intro a b
      rw [hu_lab, hlab]
  · have hrlast : (undoOp R (applyStroke R c pts th)).redo_stack.getLast? =
        some (HistoryEntry.drawing
          { id := c.next_draw_id, pixels := pts, thickness := th }) := by
      rw [hu_redo, hc'r]
      rfl
    obtain ⟨hr_seg, hr_lab⟩ := redoOp_proj_draw hrlast
    rw [hu_seg] at hr_seg
    rw [hu_seg, hu_w, hu_h, hc'w, hc'h] at hr_lab
    constructor
    · intro k
      rw [hr_seg, hc'seg]
    · intro a b
      rw [hr_lab, hc'lab, hlab]

theorem undo_redo_merge {R : Renderers} {c : Canvas} (col : Color)
    (hkeys : (c.segmentations.map Prod.fst).Nodup)
    (hwf : ∀ e ∈ c.segmentations, e.2.id = e.1)
    (hfresh : ∀ e ∈ c.segmentations, e.1 < c.next_seg_id)
    (hdisj : DisjointPixels c.segmentations)
    (hselnd : c.selected.Nodup)
    (hlab : c.pixel_labels = updatePixelLabels c.width c.height c.segmentations)
    (hlen : 2 ≤ c.selected.length)
    (hpix : ((mergeOld c).map Segmentation.pixels).join ≠ []) :
    SameContents (undoOp R (mergeSelected c col)) c ∧
    SameContents (redoOp R (undoOp R (mergeSelected c col)))
      (mergeSelected c col) := by
  have hlen2 : ¬ c.selected.length < 2 := by omega
  have hpix2 : ¬ (((c.selected.filterMap (fun i => dictFind c.segmentations i)).map
      Segmentation.pixels).join).isEmpty = true :=
    fun hc => hpix (List.isEmpty_iff.mp hc)
  have heval := mergeSelected_eval (c := c) col hlen2 hpix2
  have hfoldsel : c.selected.foldl (fun st i => dictErase st i) c.segmentations =
      c.segmentations.filter (fun e => decide (e.1 ∉ c.selected)) :=
    foldl_dictErase_eq_filter _ _
  have holdids : (mergeOld c).map Segmentation.id =
      c.selected.filter (fun i => (dictFind c.segmentations i).isSome) :=
    filterMap_find_ids c.segmentations hwf c.selected
  have hidnodup : ((mergeOld c).map Segmentation.id).Nodup := by
    rw [holdids]
    exact hselnd.filter _
  have hidsub : ∀ s ∈ mergeOld c, s.id ∈ c.selected := by
    intro s hs
    obtain ⟨i, hi, hfi⟩ := List.mem_filterMap.mp hs
    have hsid : s.id = i := hwf (i, s) (dictFind_mem hfi)
    rw [hsid]
    exact hi
  have hFfresh : ∀ e ∈ c.segmentations.filter (fun e => decide (e.1 ∉ c.selected)),
      e.1 < c.next_seg_id :=
    fun e he => hfresh e (List.mem_of_mem_filter he)
  have hc'seg : (mergeSelected c col).segmentations =
      c.segmentations.filter (fun e => decide (e.1 ∉ c.selected)) ++
        [(c.next_seg_id, mergedSeg c col)] := by
    rw [heval, hfoldsel, dictInsert_fresh (dictHas_filter_fresh hfresh) _]
  have hc'u : (mergeSelected c col).undo_stack =
      c.undo_stack ++ [HistoryEntry.merge (mergeOld c) (mergedSeg c col)] := by
    rw [heval]
  have hc'r : (mergeSelected c col).redo_stack = [] := by
    rw [heval]
  have hc'w : (mergeSelected c col).width = c.width := by
    rw [heval]
  have hc'h : (mergeSelected c col).height = c.height := by
    rw [heval]
  have hc'lab : (mergeSelected c col).pixel_labels =
      updatePixelLabels c.width c.height
        (c.segmentations.filter (fun e => decide (e.1 ∉ c.selected)) ++
          [(c.next_seg_id, mergedSeg c col)]) := by
    rw [heval, hfoldsel, dictInsert_fresh (dictHas_filter_fresh hfresh) _]
  have hlast : (mergeSelected c col).undo_stack.getLast? =
      some (HistoryEntry.merge (mergeOld c) (mergedSeg c col)) := by
    rw [hc'u]
    exact List.getLast?_concat _
  obtain ⟨hu_seg, hu_lab, hu_redo, hu_w, hu_h⟩ := undoOp_proj_merge hlast
  have herase : dictErase
      (c.segmentations.filter (fun e => decide (e.1 ∉ c.selected)) ++
        [(c.next_seg_id, mergedSeg c col)]) (mergedSeg c col).id =
      c.segmentations.filter (fun e => decide (e.1 ∉ c.selected)) :=
    dictErase_append_fresh hFfresh
  have hOfresh : ∀ s ∈ mergeOld c,
      dictHas (c.segmentations.filter (fun e => decide (e.1 ∉ c.selected)))
        s.id = false :=
    fun s hs => dictHas_filter_not_mem (hidsub s hs)
  have hfoldins : (mergeOld c).foldl (fun st s => dictInsert st s.id s)
      (c.segmentations.filter (fun e => decide (e.1 ∉ c.selected))) =
      c.segmentations.filter (fun e => decide (e.1 ∉ c.selected)) ++
        (mergeOld c).map (fun s => (s.id, s)) :=
    foldl_insertSeg_append (mergeOld c) _ hOfresh hidnodup
  rw [hc'seg, herase, hfoldins] at hu_seg
  rw [hc'seg, herase, hfoldins, hc'w, hc'h] at hu_lab
  have hndentries : (((mergeOld c).map (fun s2 => (s2.id, s2))).map Prod.fst).Nodup := by
    rw [List.map_map]
    have hcomp : (Prod.fst ∘ fun s2 : Segmentation => (s2.id, s2)) =
        Segmentation.id := rfl
    rw [hcomp]
    exact hidnodup
  have hfindS : ∀ k, dictFind
      (c.segmentations.filter (fun e => decide (e.1 ∉ c.selected)) ++
        (mergeOld c).map (fun s => (s.id, s))) k =
      dictFind c.segmentations k := by
    intro k
    rw [dictFind_append]
    by_cases hk : k ∈ c.selected
    · rw [if_neg (by rw [dictHas_filter_not_mem hk]; simp)]
      cases hf : dictFind c.segmentations k with
      | some s =>
        have hsmem : s ∈ mergeOld c := by
          unfold mergeOld
          exact List.mem_filterMap.mpr ⟨k, hk, hf⟩
        have hsid : s.id = k := hwf (k, s) (dictFind_mem hf)
        have hentry : ((k, s) : Nat × Segmentation) ∈
            (mergeOld c).map (fun s2 => (s2.id, s2)) := by
          have hmem := List.mem_map_of_mem (fun s2 : Segmentation => (s2.id, s2)) hsmem
          have hmem2 : ((s.id, s) : Nat × Segmentation) ∈
              (mergeOld c).map (fun s2 => (s2.id, s2)) := hmem
          rw [hsid] at hmem2
          exact hmem2
        exact dictFind_of_mem_nodup hndentries hentry
      | none =>
        have hnone : ((mergeOld c).map (fun s2 => (s2.id, s2))).find?
            (fun e => e.1 == k) = none := by
          rw [List.find?_eq_none]
          intro e he
          obtain ⟨s, hs, hes⟩ := List.mem_map.mp he
          simp only [beq_iff_eq]
          intro hc
          obtain ⟨i, hi, hfi⟩ := List.mem_filterMap.mp hs
          have hsid : s.id = i := hwf (i, s) (dictFind_mem hfi)
          rw [← hes] at hc
          have hik : i = k := by
            rw [← hsid]
            exact hc
          rw [hik] at hfi
          rw [hfi] at hf
          exact absurd hf (by simp)
        unfold dictFind
        rw [hnone]
        rfl
    · by_cases hHF : dictHas
          (c.segmentations.filter (fun e => decide (e.1 ∉ c.selected))) k
      · rw [if_pos hHF]
        exact dictFind_filter_not_sel_eq hk
      · rw [if_neg hHF]
        have hstore_none : dictFind c.segmentations k = none := by
          cases hf : dictFind c.segmentations k with
          | none => rfl
          | some s =>
            have hmem := dictFind_mem hf
            have hmemF : ((k, s) : Nat × Segmentation) ∈
                c.segmentations.filter (fun e => decide (e.1 ∉ c.selected)) :=
              List.mem_filter.mpr ⟨hmem, by simp [hk]⟩
            have hhas : dictHas
                (c.segmentations.filter (fun e => decide (e.1 ∉ c.selected)))
                k = true := by
              unfold dictHas
              rw [List.any_eq_true]
              exact ⟨(k, s), hmemF, by simp⟩
            exact absurd hhas hHF
        rw [hstore_none]
        have hnone : ((mergeOld c).map (fun s2 => (s2.id, s2))).find?
            (fun e => e.1 == k) = none := by
          rw [List.find?_eq_none]
          intro e he
          obtain ⟨s, hs, hes⟩ := List.mem_map.mp he
          simp only [beq_iff_eq]
          intro hc
          have hkin : s.id ∈ c.selected := hidsub s hs
          rw [← hes] at hc
          rw [show ((fun s2 : Segmentation => (s2.id, s2)) s).1 = s.id from rfl] at hc
          rw [hc] at hkin
          exact hk hkin
        unfold dictFind
        rw [hnone]
        rfl
  have hndF : ((c.segmentations.filter
      (fun e => decide (e.1 ∉ c.selected))).map Prod.fst).Nodup :=
    hkeys.sublist (List.Sublist.map _ (List.filter_sublist _))
  have hndS : ((c.segmentations.filter (fun e => decide (e.1 ∉ c.selected)) ++
      (mergeOld c).map (fun s => (s.id, s))).map Prod.fst).Nodup := by
    rw [List.map_append]
    apply List.Nodup.append hndF ?_ ?_
    · rw [List.map_map]
      have hcomp : (Prod.fst ∘ fun s2 : Segmentation => (s2.id, s2)) =
          Segmentation.id := rfl
      rw [hcomp]
      exact hidnodup
    · intro k hk1 hk2
      obtain ⟨e, he, hek⟩ := List.mem_map.mp hk1
      have hnotsel : e.1 ∉ c.selected := by
        simpa using List.of_mem_filter he
      rw [List.map_map] at hk2
      obtain ⟨s, hs, hsk⟩ := List.mem_map.mp hk2
      apply hnotsel
      rw [hek]
      rw [show (Prod.fst ∘ fun s2 : Segmentation => (s2.id, s2)) s = s.id
        from rfl] at hsk
      rw [← hsk]
      exact hidsub s hs
  constructor
  · constructor
    · intro k
      rw [hu_seg]
      exact hfindS k
    · intro a b
      rw [hu_lab, hlab]
      exact rebuild_pointwise_eq hfindS hndS hkeys hdisj a b
  · have hrlast : (undoOp R (mergeSelected c col)).redo_stack.getLast? =
        some (HistoryEntry.merge (mergeOld c) (mergedSeg c col)) := by
      rw [hu_redo, hc'r]
      rfl
    obtain ⟨hr_seg, hr_lab⟩ := redoOp_proj_merge hrlast
    rw [hu_seg] at hr_seg
    rw [hu_seg, hu_w, hu_h, hc'w, hc'h] at hr_lab
    have hfold2 : (mergeOld c).foldl (fun st s => dictErase st s.id)
        (c.segmentations.filter (fun e => decide (e.1 ∉ c.selected)) ++
          (mergeOld c).map (fun s => (s.id, s))) =
        c.segmentations.filter (fun e => decide (e.1 ∉ c.selected)) := by
      rw [← List.foldl_map (f := Segmentation.id)
        (g := fun st i => dictErase st i)]
      rw [foldl_dictErase_eq_filter]
      rw [List.filter_append]
      have h1 : (c.segmentations.filter (fun e => decide (e.1 ∉ c.selected))).filter
          (fun e => decide (e.1 ∉ (mergeOld c).map Segmentation.id)) =
          c.segmentations.filter (fun e => decide (e.1 ∉ c.selected)) := by
        apply List.filter_eq_self.mpr
        intro e he
        have hnotsel : e.1 ∉ c.selected := by
          simpa using List.of_mem_filter he
        simp only [decide_eq_true_eq]
        intro hc
        obtain ⟨s, hs, hsk⟩ := List.mem_map.mp hc
        apply hnotsel
        rw [← hsk]
        exact hidsub s hs
      have h2 : ((mergeOld c).map (fun s => (s.id, s))).filter
          (fun e => decide (e.1 ∉ (mergeOld c).map Segmentation.id)) = [] := by
        apply List.filter_eq_nil_iff.mpr
        intro e he
        obtain ⟨s, hs, hes⟩ := List.mem_map.mp he
        simp only [decide_eq_true_eq, Bool.not_eq_true]
        simp only [not_not]
        rw [← hes]
        exact List.mem_map_of_mem Segmentation.id hs
      rw [h1, h2, List.append_nil]
    rw [hfold2] at hr_seg hr_lab
    have hins2 : dictInsert
        (c.segmentations.filter (fun e => decide (e.1 ∉ c.selected)))
        (mergedSeg c col).id (mergedSeg c col) =
        c.segmentations.filter (fun e => decide (e.1 ∉ c.selected)) ++
          [(c.next_seg_id, mergedSeg c col)] :=
      dictInsert_fresh (dictHas_filter_fresh hfresh) _
    rw [hins2] at hr_seg hr_lab
    constructor
    · intro k
      rw [hr_seg, hc'seg]
    · intro a b
      rw [hr_lab, hc'lab]

/-- C2: undo/redo inverse law.  For each operation — region creation by
flood fill, stroke application, merge — applying the operation then
`undo` restores the pre-operation region store (id-for-id) and
pixel-label grid (pixel-for-pixel) exactly, and `redo` immediately
after that `undo` restores the post-operation store and grid exactly.
The hypotheses state the well-formedness the source maintains:
duplicate-free keys matching the stored ids, ids below the allocator
counters, pairwise-disjoint regions, a duplicate-free selection, and a
label grid current with the store. -/
theorem c2_undo_redo_inverse (R : Renderers) (c : Canvas)
    (hkeys : (c.segmentations.map Prod.fst).Nodup)
    (hwf : ∀ e ∈ c.segmentations, e.2.id = e.1)
    (hfresh : ∀ e ∈ c.segmentations, e.1 < c.next_seg_id)
    (hdfresh : ∀ e ∈ c.drawings, e.1 < c.next_draw_id)
    (hdisj : DisjointPixels c.segmentations)
    (hselnd : c.selected.Nodup)
    (hlab : c.pixel_labels = updatePixelLabels c.width c.height c.segmentations) :
    (∀ (x y : Int) (col : Color), isPixelBlack c.mask x y = true →
      (floodFill c.mask x y col).1 ≠ [] →
      SameContents (undoOp R (floodFillAtPosition c x y col)) c ∧
      SameContents (redoOp R (undoOp R (floodFillAtPosition c x y col)))
        (floodFillAtPosition c x y col)) ∧
    (∀ (pts : List Pos) (th : Nat), pts ≠ [] →
      SameContents (undoOp R (applyStroke R c pts th)) c ∧
      SameContents (redoOp R (undoOp R (applyStroke R c pts th)))
        (applyStroke R c pts th)) ∧
    (∀ col : Color, 2 ≤ c.selected.length →
      ((mergeOld c).map Segmentation.pixels).join ≠ [] →
      SameContents (undoOp R (mergeSelected c col)) c ∧
      SameContents (redoOp R (undoOp R (mergeSelected c col)))
        (mergeSelected c col)) :=
  ⟨fun x y col hb hfp => undo_redo_fill x y col hfresh hlab hb hfp,
   fun pts th hne => undo_redo_stroke pts th hdfresh hlab hne,
   fun col hlen hpix =>
     undo_redo_merge col hkeys hwf hfresh hdisj hselnd hlab hlen hpix⟩

theorem c2_undo_redo_inverse_witness :
    ((twoSegCanvas.segmentations.map Prod.fst).Nodup ∧
     (∀ e ∈ twoSegCanvas.segmentations, e.2.id = e.1) ∧
     (∀ e ∈ twoSegCanvas.segmentations, e.1 < twoSegCanvas.next_seg_id) ∧
     (∀ e ∈ twoSegCanvas.drawings, e.1 < twoSegCanvas.next_draw_id) ∧
     DisjointPixels twoSegCanvas.segmentations ∧
     twoSegCanvas.selected.Nodup ∧
     twoSegCanvas.pixel_labels = updatePixelLabels twoSegCanvas.width
       twoSegCanvas.height twoSegCanvas.segmentations) ∧
    ((∀ (x y : Int) (col : Color), isPixelBlack twoSegCanvas.mask x y = true →
      (floodFill twoSegCanvas.mask x y col).1 ≠ [] →
      SameContents (undoOp rendId (floodFillAtPosition twoSegCanvas x y col))
        twoSegCanvas ∧
      SameContents
        (redoOp rendId (undoOp rendId (floodFillAtPosition twoSegCanvas x y col)))
        (floodFillAtPosition twoSegCanvas x y col)) ∧
     (∀ (pts : List Pos) (th : Nat), pts ≠ [] →
      SameContents (undoOp rendId (applyStroke rendId twoSegCanvas pts th))
        twoSegCanvas ∧
      SameContents
        (redoOp rendId (undoOp rendId (applyStroke rendId twoSegCanvas pts th)))
        (applyStroke rendId twoSegCanvas pts th)) ∧
     (∀ col : Color, 2 ≤ twoSegCanvas.selected.length →
      ((mergeOld twoSegCanvas).map Segmentation.pixels).join ≠ [] →
      SameContents (undoOp rendId (mergeSelected twoSegCanvas col)) twoSegCanvas ∧
      SameContents
        (redoOp rendId (undoOp rendId (mergeSelected twoSegCanvas col)))
        (mergeSelected twoSegCanvas col))) :=
  ⟨⟨by decide, by decide, by decide, by decide, demoStore_disjoint, by decide,
    by decide⟩,
   c2_undo_redo_inverse rendId twoSegCanvas (by decide) (by decide) (by decide)
     (by decide) demoStore_disjoint (by decide) (by decide)⟩
